import Mathlib

/-!
# CHIP-8 interpreter core (`src/emulator.cpp`, class `Chip8`)

A shallow embedding of the machine state and of `initialize`, `loadProgram`,
`executeCycle` and `setKey`, followed by theorems about them.

Conventions of the embedding:

* C++ fixed arrays (`memory[4096]`, `registers[16]`, `stack[16]`,
  `screen[64 * 32]`, `keys[16]`) are functions `Nat → Nat`; only the cells below
  the declared size belong to the machine.  Every access whose index is computed
  from run-time data is guarded by the array size, and an access outside the array
  (undefined behaviour in C++) makes the operation return `none`.
* `uint8_t` / `uint16_t` values are natural numbers; every store that can leave
  the range is reduced `% 256` / `% 65536` as the C++ conversion does.  Theorems
  that depend on a register holding a byte say so (`s.registers x < 256`).
* The value produced by `randomDistribution(randomGenerator)` is an argument
  (`draw`) of `executeCycle`.
* The line written to `std::cerr` by the `default:` branch is the field
  `unknown` of the result.
-/

namespace Chip8Emu

/-! ## Machine state -/

/-- The data members of `class Chip8` (emulator.cpp lines 16-25). -/
structure Chip8 where
  memory : Nat → Nat
  registers : Nat → Nat
  indexRegister : Nat
  programCounter : Nat
  stackPointer : Nat
  stack : Nat → Nat
  delayTimer : Nat
  soundTimer : Nat
  screen : Nat → Nat
  keys : Nat → Nat

/-- The table `fontData[80]` (lines 30-47). -/
def fontData : List Nat :=
  [0xF0, 0x90, 0x90, 0x90, 0xF0,
   0x20, 0x60, 0x20, 0x20, 0x70,
   0xF0, 0x10, 0xF0, 0x80, 0xF0,
   0xF0, 0x10, 0xF0, 0x10, 0xF0,
   0x90, 0x90, 0xF0, 0x10, 0x10,
   0xF0, 0x80, 0xF0, 0x10, 0xF0,
   0xF0, 0x80, 0xF0, 0x90, 0xF0,
   0xF0, 0x10, 0x20, 0x40, 0x40,
   0xF0, 0x90, 0xF0, 0x90, 0xF0,
   0xF0, 0x90, 0xF0, 0x10, 0xF0,
   0xF0, 0x90, 0xF0, 0x90, 0x90,
   0xE0, 0x90, 0xE0, 0x90, 0xE0,
   0xF0, 0x80, 0x80, 0x80, 0xF0,
   0xE0, 0x90, 0x90, 0x90, 0xE0,
   0xF0, 0x80, 0xF0, 0x80, 0xF0,
   0xF0, 0x80, 0xF0, 0x80, 0x80]

/-! ## `initialize` (lines 54-71) -/

/-- The loop `for (int i = 0; i < 80; ++i) memory[i] = fontData[i];` started at
index `i` with `count` iterations left. -/
def copyFont : (count : Nat) → (i : Nat) → (Nat → Nat) → (Nat → Nat)
  | 0, _, mem => mem
  | count + 1, i, mem => copyFont count (i + 1) (Function.update mem i (fontData.getD i 0))

/-- The member function `Chip8::initialize`, named `init` here: every member is
overwritten, so the result does not depend on the state the call starts from. -/
def init (_s : Chip8) : Chip8 :=
  { programCounter := 0x200
    indexRegister := 0
    stackPointer := 0
    memory := copyFont 80 0 (fun _ => 0)
    registers := fun _ => 0
    stack := fun _ => 0
    screen := fun _ => 0
    keys := fun _ => 0
    delayTimer := 0
    soundTimer := 0 }

/-! ## `loadProgram` (lines 73-91) -/

/-- The two diagnostics of `loadProgram`: "Couldn't open the ROM file" and
"ROM is too large to fit in memory". -/
inductive LoadError where
  | RomUnreadable
  | RomTooLarge
  deriving DecidableEq, Repr

/-- Result of `loadProgram`: the machine afterwards and `none` when the call
returned `true`, the diagnostic when it returned `false`. -/
structure LoadResult where
  state : Chip8
  error : Option LoadError

/-- `file.read((char*)(memory + 512), fileSize)`: byte `i` of the file goes to
`memory[512 + i]`. -/
def readInto (mem : Nat → Nat) (bytes : List Nat) : Nat → Nat :=
  fun a => if 512 ≤ a ∧ a - 512 < bytes.length then bytes.getD (a - 512) 0 else mem a

/-- `Chip8::loadProgram`; `file` is `none` when the file cannot be opened and
otherwise the bytes of the file. -/
def loadProgram (s : Chip8) (file : Option (List Nat)) : LoadResult :=
  match file with
  | none => { state := s, error := some LoadError.RomUnreadable }
  | some bytes =>
    let fileSize := bytes.length
    if fileSize > 4096 - 512 then
      { state := s, error := some LoadError.RomTooLarge }
    else
      { state := { s with memory := readInto s.memory bytes }, error := none }

/-! ## `setKey` (lines 278-282) -/

/-- `Chip8::setKey(int index, bool pressed)`. -/
def setKey (s : Chip8) (index : Int) (pressed : Bool) : Chip8 :=
  if index ≥ 0 ∧ index < 16 then
    { s with keys := Function.update s.keys index.toNat (if pressed then 1 else 0) }
  else s

/-! ## `executeCycle` (lines 93-276) -/

/-- Result of one `executeCycle`: the machine afterwards and, when the `default:`
branch ran, the instruction word it wrote to `std::cerr`. -/
structure Outcome where
  state : Chip8
  unknown : Option Nat

/-- Line 94: `memory[programCounter] << 8 | memory[programCounter + 1]` as a
`uint16_t`, read at address `a`. -/
def wordAt (mem : Nat → Nat) (a : Nat) : Option Nat :=
  if a < 4096 ∧ a + 1 < 4096 then some ((mem a <<< 8 ||| mem (a + 1)) % 65536) else none

/-- The instruction fetch of line 94. -/
def fetch (s : Chip8) : Option Nat := wordAt s.memory s.programCounter

/-- Conversion of an `int` difference to `uint8_t`. -/
def sub8 (a b : Nat) : Nat := (((a : Int) - (b : Int)) % 256).toNat

/-- `programCounter += k`. -/
def advance (s : Chip8) (k : Nat) : Chip8 :=
  { s with programCounter := (s.programCounter + k) % 65536 }

/-- Lines 208-209: the index into `screen` of the pixel for sprite bit
`(row, col)` when the coordinate registers hold `vx` and `vy`. -/
def pixelIndex (vx vy row col : Nat) : Nat :=
  ((vy + row) % 32) * 64 + ((vx + col) % 64)

/-- Lines 210-213: set the collision flag if the pixel is `1`, then flip it. -/
def togglePixel (s : Chip8) (p : Nat) : Chip8 :=
  let s1 := if s.screen p = 1 then { s with registers := Function.update s.registers 0xF 1 } else s
  { s1 with screen := Function.update s1.screen p (s1.screen p ^^^ 1) }

/-- Lines 207-214: the body of the column loop.  The coordinate registers are
read from the current state, after any write to `registers[0xF]`. -/
def drawBit (regX regY row spriteRow : Nat) (s : Chip8) (col : Nat) : Chip8 :=
  if spriteRow &&& (0x80 >>> col) ≠ 0 then
    togglePixel s (pixelIndex (s.registers regX) (s.registers regY) row col)
  else s

/-- Lines 206-215: `for (int col = 0; col < 8; ++col)`. -/
def drawRow (regX regY row spriteRow : Nat) (s : Chip8) : Chip8 :=
  (List.range 8).foldl (drawBit regX regY row spriteRow) s

/-- Lines 204-216: `for (int row = 0; row < nibble; ++row)`, at `row` with
`count` iterations left. -/
def drawRows (regX regY : Nat) : (count : Nat) → (row : Nat) → Chip8 → Option Chip8
  | 0, _, s => some s
  | count + 1, row, s =>
    if s.indexRegister + row < 4096 then
      drawRows regX regY count (row + 1)
        (drawRow regX regY row (s.memory (s.indexRegister + row)) s)
    else none

/-- Lines 252-254: `for (int i = 0; i <= regX; ++i) memory[indexRegister + i] =
registers[i];`, at `i` with `count` iterations left. -/
def storeRegisters : (count : Nat) → (i : Nat) → Chip8 → Option Chip8
  | 0, _, s => some s
  | count + 1, i, s =>
    if s.indexRegister + i < 4096 then
      storeRegisters count (i + 1)
        { s with memory := Function.update s.memory (s.indexRegister + i) (s.registers i) }
    else none

/-- Lines 257-259: `for (int i = 0; i <= regX; ++i) registers[i] =
memory[indexRegister + i];`, at `i` with `count` iterations left. -/
def loadRegisters : (count : Nat) → (i : Nat) → Chip8 → Option Chip8
  | 0, _, s => some s
  | count + 1, i, s =>
    if s.indexRegister + i < 4096 then
      loadRegisters count (i + 1)
        { s with registers := Function.update s.registers i (s.memory (s.indexRegister + i)) }
    else none

/-- A completed instruction that wrote nothing to `std::cerr`. -/
def finish (s : Chip8) : Option Outcome := some { state := s, unknown := none }

/-- Lines 145-180: `switch (nibble)` of the `0x8000` family, as the register file
it leaves.  The flag write to `registers[0xF]` comes first and the operands of the
second statement are read after it, as in the source. -/
def arithRegisters (r : Nat → Nat) (nibble regX regY : Nat) : Nat → Nat :=
  if nibble = 0x0 then
    Function.update r regX (r regY)
  else if nibble = 0x1 then
    Function.update r regX (r regX ||| r regY)
  else if nibble = 0x2 then
    Function.update r regX (r regX &&& r regY)
  else if nibble = 0x3 then
    Function.update r regX (r regX ^^^ r regY)
  else if nibble = 0x4 then
    let sum := (r regX + r regY) % 65536
    let r1 := Function.update r 0xF (if sum > 255 then 1 else 0)
    Function.update r1 regX (sum &&& 0xFF)
  else if nibble = 0x5 then
    let r1 := Function.update r 0xF (if r regX > r regY then 1 else 0)
    Function.update r1 regX (sub8 (r1 regX) (r1 regY))
  else if nibble = 0x6 then
    let r1 := Function.update r 0xF (r regX &&& 0x1)
    Function.update r1 regX (r1 regX >>> 1)
  else if nibble = 0x7 then
    let r1 := Function.update r 0xF (if r regY > r regX then 1 else 0)
    Function.update r1 regX (sub8 (r1 regY) (r1 regX))
  else if nibble = 0xE then
    let r1 := Function.update r 0xF ((r regX &&& 0x80) >>> 7)
    Function.update r1 regX ((r1 regX <<< 1) % 256)
  else r

/-- Lines 144-182: the `0x8000` family. -/
def executeArith (s : Chip8) (nibble regX regY : Nat) : Chip8 :=
  advance { s with registers := arithRegisters s.registers nibble regX regY } 2

/-- Lines 229-263: the `0xF000` family. -/
def executeMisc (s : Chip8) (byteValue regX : Nat) : Option Chip8 :=
  let r := s.registers
  let s1 : Option Chip8 :=
    if byteValue = 0x07 then
      some { s with registers := Function.update r regX s.delayTimer }
    else if byteValue = 0x15 then
      some { s with delayTimer := r regX }
    else if byteValue = 0x18 then
      some { s with soundTimer := r regX }
    else if byteValue = 0x1E then
      some { s with indexRegister := (s.indexRegister + r regX) % 65536 }
    else if byteValue = 0x29 then
      some { s with indexRegister := (r regX * 5) % 65536 }
    else if byteValue = 0x33 then
      if s.indexRegister < 4096 ∧ s.indexRegister + 1 < 4096 ∧ s.indexRegister + 2 < 4096 then
        let m1 := Function.update s.memory s.indexRegister ((r regX / 100) % 256)
        let m2 := Function.update m1 (s.indexRegister + 1) (((r regX / 10) % 10) % 256)
        let m3 := Function.update m2 (s.indexRegister + 2) ((r regX % 10) % 256)
        some { s with memory := m3 }
      else none
    else if byteValue = 0x55 then
      storeRegisters (regX + 1) 0 s
    else if byteValue = 0x65 then
      loadRegisters (regX + 1) 0 s
    else some s
  s1.map (fun t => advance t 2)

/-- Lines 103-111: the `0x0000` family.  Any word other than `0x00E0` and
`0x00EE` falls through both tests: nothing is done. -/
def executeSys (s : Chip8) (instruction : Nat) : Option Outcome :=
  if instruction = 0x00E0 then
    finish (advance { s with screen := fun _ => 0 } 2)
  else if instruction = 0x00EE then
    let sp := (s.stackPointer + 255) % 256
    if sp < 16 then
      finish (advance { s with stackPointer := sp, programCounter := s.stack sp } 2)
    else none
  else finish s

/-- Lines 117-120: the `0x2000` family (call). -/
def executeCall (s : Chip8) (address : Nat) : Option Outcome :=
  if s.stackPointer < 16 then
    finish { s with
      stack := Function.update s.stack s.stackPointer s.programCounter,
      stackPointer := (s.stackPointer + 1) % 256,
      programCounter := address }
  else none

/-- Lines 202-219: the `0xD000` family (draw). -/
def executeDraw (s : Chip8) (nibble regX regY : Nat) : Option Outcome :=
  (drawRows regX regY nibble 0 { s with registers := Function.update s.registers 0xF 0 }).bind
    (fun t => finish (advance t 2))

/-- Lines 221-227: the `0xE000` family.  Any low byte other than `0x9E` and
`0xA1` falls through both tests: nothing is done. -/
def executeKey (s : Chip8) (byteValue regX : Nat) : Option Outcome :=
  let r := s.registers
  if byteValue = 0x9E then
    if r regX < 16 then finish (advance s (if s.keys (r regX) ≠ 0 then 4 else 2)) else none
  else if byteValue = 0xA1 then
    if r regX < 16 then finish (advance s (if s.keys (r regX) = 0 then 4 else 2)) else none
  else finish s

/-- Lines 96-268: decode and the `switch (instruction & 0xF000)`. -/
def execute (s : Chip8) (draw : Nat) (instruction : Nat) : Option Outcome :=
  let address := instruction &&& 0x0FFF
  let nibble := instruction &&& 0x000F
  let regX := (instruction &&& 0x0F00) >>> 8
  let regY := (instruction &&& 0x00F0) >>> 4
  let byteValue := instruction &&& 0x00FF
  let family := instruction &&& 0xF000
  let r := s.registers
  if family = 0x0000 then
    executeSys s instruction
  else if family = 0x1000 then
    finish { s with programCounter := address }
  else if family = 0x2000 then
    executeCall s address
  else if family = 0x3000 then
    finish (advance s (if r regX = byteValue then 4 else 2))
  else if family = 0x4000 then
    finish (advance s (if r regX ≠ byteValue then 4 else 2))
  else if family = 0x5000 then
    finish (advance s (if r regX = r regY then 4 else 2))
  else if family = 0x6000 then
    finish (advance { s with registers := Function.update r regX byteValue } 2)
  else if family = 0x7000 then
    finish (advance { s with registers := Function.update r regX ((r regX + byteValue) % 256) } 2)
  else if family = 0x8000 then
    finish (executeArith s nibble regX regY)
  else if family = 0x9000 then
    finish (advance s (if r regX ≠ r regY then 4 else 2))
  else if family = 0xA000 then
    finish (advance { s with indexRegister := address } 2)
  else if family = 0xB000 then
    finish { s with programCounter := (address + r 0) % 65536 }
  else if family = 0xC000 then
    finish (advance { s with registers := Function.update r regX ((draw &&& byteValue) % 256) } 2)
  else if family = 0xD000 then
    executeDraw s nibble regX regY
  else if family = 0xE000 then
    executeKey s byteValue regX
  else if family = 0xF000 then
    (executeMisc s byteValue regX).bind finish
  else
    some { state := advance s 2, unknown := some instruction }

/-- Lines 270-275: the timer tick at the end of every cycle. -/
def tickTimers (s : Chip8) : Chip8 :=
  let s1 := if s.delayTimer > 0 then { s with delayTimer := s.delayTimer - 1 } else s
  if s1.soundTimer > 0 then { s1 with soundTimer := s1.soundTimer - 1 } else s1

/-- `Chip8::executeCycle`: fetch, decode and execute one instruction, then tick
the timers.  `draw` is the value the random generator yields in this cycle. -/
def executeCycle (s : Chip8) (draw : Nat) : Option Outcome :=
  match fetch s with
  | none => none
  | some instruction =>
    (execute s draw instruction).map
      (fun o => { state := tickTimers o.state, unknown := o.unknown })

/-! ## Concrete machines used to evaluate the code -/

/-- The members before the constructor body runs; `init` overwrites all of them. -/
def zeroState : Chip8 :=
  { memory := fun _ => 0, registers := fun _ => 0, indexRegister := 0, programCounter := 0,
    stackPointer := 0, stack := fun _ => 0, delayTimer := 0, soundTimer := 0,
    screen := fun _ => 0, keys := fun _ => 0 }

/-- The machine as `main` prepares it: constructed (which runs `initialize`) and
then loaded with the bytes `rom`. -/
def boot (rom : List Nat) : Chip8 := (loadProgram (init zeroState) (some rom)).state

/-- A machine about to execute `0x801N` (an arithmetic instruction on `V0` and
`V1`, `low = 0x1N`) with `V0 = a`, `V1 = b` and the other registers 0. -/
def arithMachine (low a b : Nat) : Chip8 :=
  { boot [0x80, low] with registers := fun i => if i = 0 then a else if i = 1 then b else 0 }

/-- A machine about to execute `0x2206` (call `0x206`) where `0x206` holds
`0x00EE` (return), with `depth` return addresses already on the stack. -/
def callMachine (depth : Nat) : Chip8 :=
  { boot [0x22, 0x06, 0x00, 0xE0, 0x12, 0x04, 0x00, 0xEE] with stackPointer := depth }

/-- A machine about to execute `0xF033` (decimal digits of `V0`) with `V0 = v`
and the index register at `0x300`. -/
def bcdMachine (v : Nat) : Chip8 :=
  { boot [0xF0, 0x33] with registers := fun i => if i = 0 then v else 0, indexRegister := 0x300 }

/-- The pixels flipped by one sprite row, in the order the column loop visits
them, when the coordinate registers hold `vx`, `vy` throughout. -/
def rowTargets (vx vy row spriteRow : Nat) (cols : List Nat) : List Nat :=
  (cols.filter (fun col => spriteRow &&& (0x80 >>> col) ≠ 0)).map (pixelIndex vx vy row)

/-- The pixels flipped by `count` sprite rows starting at `row`, in loop order;
`sprite r` is the byte of sprite row `r`. -/
def targets (sprite : Nat → Nat) (vx vy : Nat) : (count : Nat) → (row : Nat) → List Nat
  | 0, _ => []
  | count + 1, row =>
    rowTargets vx vy row (sprite row) (List.range 8) ++ targets sprite vx vy count (row + 1)

/-- Flip the listed pixels in order, as lines 210-213 do. -/
def applyToggles (ps : List Nat) (s : Chip8) : Chip8 := ps.foldl togglePixel s

/-- Pixel `q` is the image of a set bit of the sprite that `0xDxyn` draws from
state `s`: some row below `nibble` and column below 8 whose bit passes the test of
line 207 maps to `q`. -/
def SpriteHits (s : Chip8) (regX regY nibble q : Nat) : Prop :=
  ∃ row col, row < nibble ∧ col < 8 ∧
    s.memory (s.indexRegister + row) &&& (0x80 >>> col) ≠ 0 ∧
    q = pixelIndex (s.registers regX) (s.registers regY) row col

/-- Everything the draw loop leaves alone: all members but `screen` and
`registers[0xF]`. -/
def DrawFrame (s t : Chip8) : Prop :=
  t.memory = s.memory ∧ t.indexRegister = s.indexRegister ∧
  t.programCounter = s.programCounter ∧ t.stackPointer = s.stackPointer ∧
  t.stack = s.stack ∧ t.delayTimer = s.delayTimer ∧ t.soundTimer = s.soundTimer ∧
  t.keys = s.keys ∧ ∀ i, i ≠ 0xF → t.registers i = s.registers i

/-- The claim's description of a lit pixel: `(r, c)` is the wrapped position
`((Vy + row) mod 32, (Vx + col) mod 64)` of some row below `nibble` and column
below 8 for which bit `7 - col` of `memory[I + row]` is set. -/
def SpritePixel (s : Chip8) (regX regY nibble r c : Nat) : Prop :=
  ∃ row col, row < nibble ∧ col < 8 ∧
    r = (s.registers regY + row) % 32 ∧ c = (s.registers regX + col) % 64 ∧
    (s.memory (s.indexRegister + row)).testBit (7 - col) = true

/-- A machine about to execute `0x00E0` and then `0xD123` (draw 3 rows at
`(V1, V2)`), with `V1 = 62`, `V2 = 30`, pixels already lit and the index register
at the glyph of digit 2, so that the sprite wraps around both edges. -/
def clearDrawMachine : Chip8 :=
  { boot [0x00, 0xE0, 0xD1, 0x23] with
    registers := fun i => if i = 1 then 62 else if i = 2 then 30 else 0,
    screen := fun p => if p % 3 = 0 then 1 else 0,
    indexRegister := 10 }

/-- A machine with a clear display about to execute `0xD125` twice in a row,
with `V1 = 62`, `V2 = 30` and the index register at the glyph of digit 2. -/
def drawTwiceMachine : Chip8 :=
  { boot [0xD1, 0x25, 0xD1, 0x25] with
    registers := fun i => if i = 1 then 62 else if i = 2 then 30 else 0,
    indexRegister := 10 }

/-- A freshly booted machine (clear display, all registers 0, index register 0,
so the sprite is the first font byte `0xF0`) about to execute `0xDF01` twice in a
row: the x coordinate is taken from `VF`. -/
def flagSelectorMachine : Chip8 := boot [0xDF, 0x01, 0xDF, 0x01]

/-! ## Devices for the later theorems -/

/-- Everything a skip instruction leaves alone: all members but the program
counter and the timers. -/
def SkipFrame (s t : Chip8) : Prop :=
  t.registers = s.registers ∧ t.indexRegister = s.indexRegister ∧ t.stack = s.stack ∧
  t.stackPointer = s.stackPointer ∧ t.memory = s.memory ∧ t.screen = s.screen ∧
  t.keys = s.keys

/-- A machine about to execute the word `hi lo` with `V0 = a`, `V1 = b`, the
other registers 0 and the delay timer at `d`. -/
def wordMachine (hi lo a b d : Nat) : Chip8 :=
  { boot [hi, lo] with
    registers := fun i => if i = 0 then a else if i = 1 then b else 0,
    delayTimer := d }

/-- The flag that the `0x8000` family writes to `registers[0xF]` (lines 160, 165,
169, 173, 177) for low nibble `nibble` when `registers[regX] = a` and
`registers[regY] = b`. -/
def flagOutput (nibble a b : Nat) : Nat :=
  if nibble = 0x4 then (if (a + b) % 65536 > 255 then 1 else 0)
  else if nibble = 0x5 then (if a > b then 1 else 0)
  else if nibble = 0x6 then a &&& 0x1
  else if nibble = 0x7 then (if b > a then 1 else 0)
  else if nibble = 0xE then (a &&& 0x80) >>> 7
  else 0

/-- The arithmetic or shift result of the `0x8000` family for low nibble `nibble`
on the operands `a` (for `Vx`) and `b` (for `Vy`): sum, difference, reversed
difference, each mod 256, and the shifts. -/
def primaryResult (nibble a b : Nat) : Nat :=
  if nibble = 0x4 then (a + b) % 256
  else if nibble = 0x5 then sub8 a b
  else if nibble = 0x6 then a >>> 1
  else if nibble = 0x7 then sub8 b a
  else if nibble = 0xE then (a <<< 1) % 256
  else a

/-- A machine about to execute the word `hi lo` with `V0 = a`, `VF = f` and the
other registers 0. -/
def flagMachine (hi lo a f : Nat) : Chip8 :=
  { boot [hi, lo] with registers := fun i => if i = 0 then a else if i = 0xF then f else 0 }

/-- Memory after the store loop has run `count` iterations from `i`: the cells
`I + i .. I + i + count - 1` hold the registers `i .. i + count - 1`. -/
def storedMemory (s : Chip8) (count i : Nat) : Nat → Nat :=
  fun a => if s.indexRegister + i ≤ a ∧ a < s.indexRegister + i + count
    then s.registers (a - s.indexRegister) else s.memory a

/-- Registers after the load loop has run `count` iterations from `i`: the
registers `i .. i + count - 1` hold the cells `I + i .. I + i + count - 1`. -/
def loadedRegisters (s : Chip8) (count i : Nat) : Nat → Nat :=
  fun j => if i ≤ j ∧ j < i + count then s.memory (s.indexRegister + j) else s.registers j

/-- A machine about to execute `0xF255` (store `V0..V2`) and then `0xF265` (load
them back), with `V0 = 11`, `V1 = 22`, `V2 = 33`, `V3 = 44` and the index register
at `0x300`. -/
def storeLoadMachine : Chip8 :=
  { boot [0xF2, 0x55, 0xF2, 0x65] with
    registers := fun i => if i = 0 then 11 else if i = 1 then 22 else if i = 2 then 33
      else if i = 3 then 44 else 0,
    indexRegister := 0x300 }

/-- The condition under which every array access of the cycle that executes the
word `w` from state `s` stays inside its array: the stack slot of a return or
call, the sprite rows of a draw, the key tested, the three digit cells, the block
stored or loaded.  Words of the other families index no array with run-time data. -/
def IndexInRange (s : Chip8) (w : Nat) : Prop :=
  let nibble := w &&& 0x000F
  let regX := (w &&& 0x0F00) >>> 8
  let byteValue := w &&& 0x00FF
  let family := w &&& 0xF000
  if family = 0x0000 then
    w = 0x00EE → 1 ≤ s.stackPointer ∧ s.stackPointer ≤ 16
  else if family = 0x2000 then
    s.stackPointer < 16
  else if family = 0xD000 then
    nibble = 0 ∨ s.indexRegister + nibble ≤ 4096
  else if family = 0xE000 then
    byteValue = 0x9E ∨ byteValue = 0xA1 → s.registers regX < 16
  else if family = 0xF000 then
    (byteValue = 0x33 → s.indexRegister + 2 < 4096) ∧
    (byteValue = 0x55 ∨ byteValue = 0x65 → s.indexRegister + regX < 4096)
  else True

/-- A machine about to execute the word `hi lo` with `V0 = a`, the other
registers 0, the index register at `idx` and the stack pointer at `sp`. -/
def indexMachine (hi lo a idx sp : Nat) : Chip8 :=
  { boot [hi, lo] with
    registers := fun i => if i = 0 then a else 0,
    indexRegister := idx,
    stackPointer := sp }

/-- The states the machine can be in: after `initialize`, and after any further
`loadProgram`, `setKey` or completed `executeCycle`. -/
inductive Reachable : Chip8 → Prop
  | init (s0 : Chip8) : Reachable (init s0)
  | load (s : Chip8) (file : Option (List Nat)) :
      Reachable s → Reachable (loadProgram s file).state
  | key (s : Chip8) (index : Int) (pressed : Bool) :
      Reachable s → Reachable (setKey s index pressed)
  | cycle (s : Chip8) (draw : Nat) (o : Outcome) :
      Reachable s → executeCycle s draw = some o → Reachable o.state

/-- The word at the program counter is `0xFx33` or `0xFx55` and the index
register is below `0x50`, the end of the font: the cycle is about to store into
the font region. -/
def StoresIntoFont (s : Chip8) : Prop :=
  ∃ w, fetch s = some w ∧ w &&& 0xF000 = 0xF000 ∧
    (w &&& 0x00FF = 0x33 ∨ w &&& 0x00FF = 0x55) ∧ s.indexRegister < 80

/-- The states reachable without ever executing `0xFx33` or `0xFx55` while the
index register is below `0x50`. -/
inductive ReachableSparingFont : Chip8 → Prop
  | init (s0 : Chip8) : ReachableSparingFont (init s0)
  | load (s : Chip8) (file : Option (List Nat)) :
      ReachableSparingFont s → ReachableSparingFont (loadProgram s file).state
  | key (s : Chip8) (index : Int) (pressed : Bool) :
      ReachableSparingFont s → ReachableSparingFont (setKey s index pressed)
  | cycle (s : Chip8) (draw : Nat) (o : Outcome) :
      ReachableSparingFont s → ¬ StoresIntoFont s → executeCycle s draw = some o →
      ReachableSparingFont o.state

/-- Every display cell holds 0 or 1. -/
def BinaryScreen (s : Chip8) : Prop := ∀ p, s.screen p = 0 ∨ s.screen p = 1

/-! # Theorems -/

/-! ## Instruction decoding -/

theorem and_shiftLeft_mask (w m k : Nat) : w &&& (m <<< k) = ((w >>> k) &&& m) <<< k := by
  apply Nat.eq_of_testBit_eq
  intro i
  simp only [Nat.testBit_and, Nat.testBit_shiftLeft, Nat.testBit_shiftRight]
  by_cases h : i ≥ k
  · have : k + (i - k) = i := by omega
    simp [h, this]
  · simp [h]

theorem decode_family (w : Nat) : w &&& 0xF000 = ((w / 4096) % 16) * 4096 := by
  have h := and_shiftLeft_mask w 0xF 12
  have e1 : (0xF : Nat) <<< 12 = 0xF000 := by decide
  rw [e1] at h
  rw [h, Nat.shiftLeft_eq, Nat.shiftRight_eq_div_pow]
  have := Nat.and_pow_two_sub_one_eq_mod (w / 2 ^ 12) 4
  norm_num at this ⊢
  rw [this]

theorem decode_regX (w : Nat) : (w &&& 0x0F00) >>> 8 = (w / 256) % 16 := by
  have h := and_shiftLeft_mask w 0xF 8
  have e1 : (0xF : Nat) <<< 8 = 0x0F00 := by decide
  rw [e1] at h
  rw [h, Nat.shiftLeft_eq, Nat.shiftRight_eq_div_pow, Nat.shiftRight_eq_div_pow]
  have := Nat.and_pow_two_sub_one_eq_mod (w / 2 ^ 8) 4
  norm_num at this ⊢
  rw [this]

theorem decode_regY (w : Nat) : (w &&& 0x00F0) >>> 4 = (w / 16) % 16 := by
  have h := and_shiftLeft_mask w 0xF 4
  have e1 : (0xF : Nat) <<< 4 = 0x00F0 := by decide
  rw [e1] at h
  rw [h, Nat.shiftLeft_eq, Nat.shiftRight_eq_div_pow, Nat.shiftRight_eq_div_pow]
  have := Nat.and_pow_two_sub_one_eq_mod (w / 2 ^ 4) 4
  norm_num at this ⊢
  rw [this]

theorem decode_address (w : Nat) : w &&& 0x0FFF = w % 4096 :=
  Nat.and_pow_two_sub_one_eq_mod w 12

theorem decode_byteValue (w : Nat) : w &&& 0x00FF = w % 256 :=
  Nat.and_pow_two_sub_one_eq_mod w 8

theorem decode_nibble (w : Nat) : w &&& 0x000F = w % 16 :=
  Nat.and_pow_two_sub_one_eq_mod w 4

theorem wordAt_bound {mem : Nat → Nat} {a w : Nat} (h : wordAt mem a = some w) :
    a + 1 < 4096 := by
  unfold wordAt at h
  by_cases hb : a < 4096 ∧ a + 1 < 4096
  · exact hb.2
  · rw [if_neg hb] at h
    cases h

theorem fetch_bound {s : Chip8} {w : Nat} (h : fetch s = some w) :
    s.programCounter + 1 < 4096 :=
  wordAt_bound h

/-! ## The timer tick and the program-counter step leave the rest alone -/

@[simp] theorem tickTimers_memory (s : Chip8) : (tickTimers s).memory = s.memory := by
  unfold tickTimers; dsimp only; split <;> split <;> rfl

@[simp] theorem tickTimers_registers (s : Chip8) : (tickTimers s).registers = s.registers := by
  unfold tickTimers; dsimp only; split <;> split <;> rfl

@[simp] theorem tickTimers_indexRegister (s : Chip8) :
    (tickTimers s).indexRegister = s.indexRegister := by
  unfold tickTimers; dsimp only; split <;> split <;> rfl

@[simp] theorem tickTimers_programCounter (s : Chip8) :
    (tickTimers s).programCounter = s.programCounter := by
  unfold tickTimers; dsimp only; split <;> split <;> rfl

@[simp] theorem tickTimers_stackPointer (s : Chip8) :
    (tickTimers s).stackPointer = s.stackPointer := by
  unfold tickTimers; dsimp only; split <;> split <;> rfl

@[simp] theorem tickTimers_stack (s : Chip8) : (tickTimers s).stack = s.stack := by
  unfold tickTimers; dsimp only; split <;> split <;> rfl

@[simp] theorem tickTimers_screen (s : Chip8) : (tickTimers s).screen = s.screen := by
  unfold tickTimers; dsimp only; split <;> split <;> rfl

@[simp] theorem tickTimers_keys (s : Chip8) : (tickTimers s).keys = s.keys := by
  unfold tickTimers; dsimp only; split <;> split <;> rfl

theorem tickTimers_delayTimer (s : Chip8) : (tickTimers s).delayTimer = s.delayTimer - 1 := by
  unfold tickTimers; dsimp only; split <;> split <;> simp_all

theorem tickTimers_soundTimer (s : Chip8) : (tickTimers s).soundTimer = s.soundTimer - 1 := by
  unfold tickTimers; dsimp only; split <;> split <;> simp_all

theorem executeCycle_of_fetch {s : Chip8} {w : Nat} (draw : Nat) (h : fetch s = some w) :
    executeCycle s draw = (execute s draw w).map
      (fun o => { state := tickTimers o.state, unknown := o.unknown }) := by
  simp only [executeCycle, h]

theorem execute_arith (s : Chip8) (draw w : Nat) (h : w &&& 0xF000 = 0x8000) :
    execute s draw w =
      finish (executeArith s (w &&& 0x000F) ((w &&& 0x0F00) >>> 8) ((w &&& 0x00F0) >>> 4)) := by
  simp [execute, h]



theorem execute_family (s : Chip8) (draw w : Nat) :
    (w &&& 0xF000 = 0x0000 ∧ execute s draw w = executeSys s w) ∨
    (w &&& 0xF000 = 0x1000 ∧
      execute s draw w = finish { s with programCounter := w &&& 0x0FFF }) ∨
    (w &&& 0xF000 = 0x2000 ∧ execute s draw w = executeCall s (w &&& 0x0FFF)) ∨
    (w &&& 0xF000 = 0x3000 ∧ execute s draw w =
      finish (advance s (if s.registers ((w &&& 0x0F00) >>> 8) = w &&& 0x00FF then 4 else 2))) ∨
    (w &&& 0xF000 = 0x4000 ∧ execute s draw w =
      finish (advance s (if s.registers ((w &&& 0x0F00) >>> 8) ≠ w &&& 0x00FF then 4 else 2))) ∨
    (w &&& 0xF000 = 0x5000 ∧ execute s draw w =
      finish (advance s (if s.registers ((w &&& 0x0F00) >>> 8) =
        s.registers ((w &&& 0x00F0) >>> 4) then 4 else 2))) ∨
    (w &&& 0xF000 = 0x6000 ∧ execute s draw w =
      finish (advance
        { s with registers := Function.update s.registers ((w &&& 0x0F00) >>> 8) (w &&& 0x00FF) }
        2)) ∨
    (w &&& 0xF000 = 0x7000 ∧ execute s draw w =
      finish (advance
        { s with registers := Function.update s.registers ((w &&& 0x0F00) >>> 8)
                                ((s.registers ((w &&& 0x0F00) >>> 8) + (w &&& 0x00FF)) % 256) }
        2)) ∨
    (w &&& 0xF000 = 0x8000 ∧ execute s draw w =
      finish (executeArith s (w &&& 0x000F) ((w &&& 0x0F00) >>> 8) ((w &&& 0x00F0) >>> 4))) ∨
    (w &&& 0xF000 = 0x9000 ∧ execute s draw w =
      finish (advance s (if s.registers ((w &&& 0x0F00) >>> 8) ≠
        s.registers ((w &&& 0x00F0) >>> 4) then 4 else 2))) ∨
    (w &&& 0xF000 = 0xA000 ∧ execute s draw w =
      finish (advance { s with indexRegister := w &&& 0x0FFF } 2)) ∨
    (w &&& 0xF000 = 0xB000 ∧ execute s draw w =
      finish { s with programCounter := ((w &&& 0x0FFF) + s.registers 0) % 65536 }) ∨
    (w &&& 0xF000 = 0xC000 ∧ execute s draw w =
      finish (advance
        { s with registers := Function.update s.registers ((w &&& 0x0F00) >>> 8)
                                ((draw &&& (w &&& 0x00FF)) % 256) }
        2)) ∨
    (w &&& 0xF000 = 0xD000 ∧ execute s draw w =
      executeDraw s (w &&& 0x000F) ((w &&& 0x0F00) >>> 8) ((w &&& 0x00F0) >>> 4)) ∨
    (w &&& 0xF000 = 0xE000 ∧ execute s draw w =
      executeKey s (w &&& 0x00FF) ((w &&& 0x0F00) >>> 8)) ∨
    (w &&& 0xF000 = 0xF000 ∧ execute s draw w =
      (executeMisc s (w &&& 0x00FF) ((w &&& 0x0F00) >>> 8)).bind finish) := by
  have hfam := decode_family w
  have hlt : (w / 4096) % 16 < 16 := Nat.mod_lt _ (by decide)
  generalize (w / 4096) % 16 = k at hfam hlt
  interval_cases k <;> simp [execute, hfam]


/-! ## Timers -/

/-- C4: for a destination `x` other than `0xF` and any `y`, one cycle on `0x8xy4`
leaves `(Vx + Vy) mod 256` in register `x`, the carry (1 when `Vx + Vy > 255`,
else 0) in `VF`, and the program counter 2 further; `Vx`, `Vy` are the bytes the
registers held before the cycle. -/
theorem add_with_carry (s : Chip8) (draw x y : Nat) (hx : x < 16) (hxF : x ≠ 0xF) (hy : y < 16)
    (hvx : s.registers x < 256) (hvy : s.registers y < 256)
    (hf : fetch s = some (0x8004 + x * 0x100 + y * 0x10)) :
    ∃ o, executeCycle s draw = some o ∧
      o.state.registers x = (s.registers x + s.registers y) % 256 ∧
      o.state.registers 0xF = (if s.registers x + s.registers y > 255 then 1 else 0) ∧
      o.state.programCounter = s.programCounter + 2 := by
  have hpc := fetch_bound hf
  have hfam : (0x8004 + x * 0x100 + y * 0x10) &&& 0xF000 = 0x8000 := by
    rw [decode_family]; omega
  have hX : ((0x8004 + x * 0x100 + y * 0x10) &&& 0x0F00) >>> 8 = x := by
    rw [decode_regX]; omega
  have hY : ((0x8004 + x * 0x100 + y * 0x10) &&& 0x00F0) >>> 4 = y := by
    rw [decode_regY]; omega
  have hN : (0x8004 + x * 0x100 + y * 0x10) &&& 0x000F = 4 := by
    rw [decode_nibble]; omega
  have hsum : (s.registers x + s.registers y) % 65536 = s.registers x + s.registers y := by
    omega
  rw [executeCycle_of_fetch draw hf, execute_arith _ _ _ hfam, hX, hY, hN]
  refine ⟨_, rfl, ?_, ?_, ?_⟩
  · simp [executeArith, arithRegisters, advance, hsum, decode_byteValue]
  · simp [executeArith, arithRegisters, advance, hsum, decode_byteValue,
      Function.update_noteq (Ne.symm hxF)]
  · simp [executeArith, advance]
    omega


/-- Witness for C4: `0xFF + 0x01` gives `0x00` with `VF = 1`, and `0x01 + 0x01`
gives `0x02` with `VF = 0`. -/
theorem add_with_carry_witness :
    (∃ o, executeCycle (arithMachine 0x14 0xFF 0x01) 0 = some o ∧
      o.state.registers 0 = 0x00 ∧ o.state.registers 0xF = 1 ∧
      o.state.programCounter = 0x202) ∧
    (∃ o, executeCycle (arithMachine 0x14 0x01 0x01) 0 = some o ∧
      o.state.registers 0 = 0x02 ∧ o.state.registers 0xF = 0 ∧
      o.state.programCounter = 0x202) :=
  ⟨add_with_carry (arithMachine 0x14 0xFF 0x01) 0 0 1 (by decide) (by decide) (by decide)
      (by decide) (by decide) (by decide),
   add_with_carry (arithMachine 0x14 0x01 0x01) 0 0 1 (by decide) (by decide) (by decide)
      (by decide) (by decide) (by decide)⟩

theorem execute_sys (s : Chip8) (draw w : Nat) (h : w &&& 0xF000 = 0x0000) :
    execute s draw w = executeSys s w := by
  simp [execute, h]

theorem execute_call (s : Chip8) (draw w : Nat) (h : w &&& 0xF000 = 0x2000) :
    execute s draw w = executeCall s (w &&& 0x0FFF) := by
  simp [execute, h]

theorem execute_draw (s : Chip8) (draw w : Nat) (h : w &&& 0xF000 = 0xD000) :
    execute s draw w =
      executeDraw s (w &&& 0x000F) ((w &&& 0x0F00) >>> 8) ((w &&& 0x00F0) >>> 4) := by
  simp [execute, h]

theorem execute_misc (s : Chip8) (draw w : Nat) (h : w &&& 0xF000 = 0xF000) :
    execute s draw w = (executeMisc s (w &&& 0x00FF) ((w &&& 0x0F00) >>> 8)).bind finish := by
  simp [execute, h]

/-- The `default:` branch of the switch is dead: the sixteen `case` labels cover
every value of `instruction & 0xF000`, so no cycle ever writes the
"Unknown instruction" line. -/
theorem execute_never_unknown (s : Chip8) (draw w : Nat) (o : Outcome)
    (h : execute s draw w = some o) : o.unknown = none := by
  rcases execute_family s draw w with
    ⟨_, he⟩ | ⟨_, he⟩ | ⟨_, he⟩ | ⟨_, he⟩ | ⟨_, he⟩ | ⟨_, he⟩ | ⟨_, he⟩ | ⟨_, he⟩ |
    ⟨_, he⟩ | ⟨_, he⟩ | ⟨_, he⟩ | ⟨_, he⟩ | ⟨_, he⟩ | ⟨_, he⟩ | ⟨_, he⟩ | ⟨_, he⟩
  all_goals rw [he] at h
  case inl =>
    unfold executeSys finish at h
    dsimp only at h
    split_ifs at h
    all_goals (cases h; rfl)
  case inr.inr.inl =>
    unfold executeCall finish at h
    split_ifs at h
    all_goals (cases h; rfl)
  case inr.inr.inr.inr.inr.inr.inr.inr.inr.inr.inr.inr.inr.inl =>
    unfold executeDraw finish at h
    simp only [Option.bind_eq_some, Option.some.injEq] at h
    obtain ⟨t, _, rfl⟩ := h
    rfl
  case inr.inr.inr.inr.inr.inr.inr.inr.inr.inr.inr.inr.inr.inr.inl =>
    unfold executeKey finish at h
    dsimp only at h
    split_ifs at h
    all_goals (cases h; rfl)
  case inr.inr.inr.inr.inr.inr.inr.inr.inr.inr.inr.inr.inr.inr.inr =>
    simp only [Option.bind_eq_some, finish, Option.some.injEq] at h
    obtain ⟨t, _, rfl⟩ := h
    rfl
  all_goals (cases h; rfl)

/-- C1 (the code departs from the claim): on each of the four kinds of
unrecognised word the cycle reports nothing, and on `0x0nnn` and `0xExkk` it does
not even advance the program counter.  Evaluated on a freshly initialised machine
holding the word at `0x200`: `0x0000` and `0xE000` leave the program counter at
`0x200`, `0x8008` and `0xF000` move it to `0x202`, and no `UnknownInstruction`
is signalled in any of them. -/
theorem unrecognised_words_unreported :
    (executeCycle (boot [0x00, 0x00]) 0).map (fun o => (o.unknown, o.state.programCounter))
      = some (none, 0x200) ∧
    (executeCycle (boot [0x80, 0x08]) 0).map (fun o => (o.unknown, o.state.programCounter))
      = some (none, 0x202) ∧
    (executeCycle (boot [0xE0, 0x00]) 0).map (fun o => (o.unknown, o.state.programCounter))
      = some (none, 0x200) ∧
    (executeCycle (boot [0xF0, 0x00]) 0).map (fun o => (o.unknown, o.state.programCounter))
      = some (none, 0x202) := by
  decide

/-! ## Subtraction (`0x8xy5`, `0x8xy7`) -/

/-- C5 (the code departs from the claim): with `Vx = Vy = 7` both `0x8015` and
`0x8017` leave the difference 0 in `V0` and 0 in `VF`, although no borrow
occurred; the flag is computed with `>` where not-borrow is `>=`.  For unequal
operands the flag is as claimed: `2 - 1` gives 1 with `VF = 1`, `1 - 2` gives
`0xFF` with `VF = 0`. -/
theorem sub_equal_operands_flag :
    (executeCycle (arithMachine 0x15 7 7) 0).map
        (fun o => (o.state.registers 0, o.state.registers 0xF)) = some (0, 0) ∧
    (executeCycle (arithMachine 0x17 7 7) 0).map
        (fun o => (o.state.registers 0, o.state.registers 0xF)) = some (0, 0) ∧
    (executeCycle (arithMachine 0x15 2 1) 0).map
        (fun o => (o.state.registers 0, o.state.registers 0xF)) = some (1, 1) ∧
    (executeCycle (arithMachine 0x15 1 2) 0).map
        (fun o => (o.state.registers 0, o.state.registers 0xF)) = some (0xFF, 0) := by
  decide

/-! ## Call and return (`0x2nnn`, `0x00EE`) -/

/-- C6: with the stack pointer below 16, `0x2nnn` at the program counter `p` and
`0x00EE` at `nnn`: the first cycle sets the program counter to `nnn`, stores `p`
in `stack[s]` and makes the stack pointer `s + 1`; the second cycle leaves the
program counter at `p + 2` and the stack pointer at `s` again. -/
theorem call_then_return (s : Chip8) (d1 d2 nnn : Nat) (hn : nnn < 4096)
    (hsp : s.stackPointer < 16)
    (hcall : wordAt s.memory s.programCounter = some (0x2000 + nnn))
    (hret : wordAt s.memory nnn = some 0x00EE) :
    ∃ o1 o2, executeCycle s d1 = some o1 ∧
      o1.state.programCounter = nnn ∧
      o1.state.stack s.stackPointer = s.programCounter ∧
      o1.state.stackPointer = s.stackPointer + 1 ∧
      executeCycle o1.state d2 = some o2 ∧
      o2.state.programCounter = s.programCounter + 2 ∧
      o2.state.stackPointer = s.stackPointer := by
  have hpc := wordAt_bound hcall
  have hfam : (0x2000 + nnn) &&& 0xF000 = 0x2000 := by
    rw [decode_family]; omega
  have haddr : (0x2000 + nnn) &&& 0x0FFF = nnn := by
    rw [decode_address]; omega
  have hsp1 : (s.stackPointer + 1) % 256 = s.stackPointer + 1 := by omega
  have hsp2 : (s.stackPointer + 1 + 255) % 256 = s.stackPointer := by omega
  have hpc2 : (s.programCounter + 2) % 65536 = s.programCounter + 2 := by omega
  have h1 : executeCycle s d1 = some
      { state := tickTimers { s with
          stack := Function.update s.stack s.stackPointer s.programCounter,
          stackPointer := s.stackPointer + 1,
          programCounter := nnn },
        unknown := none } := by
    rw [executeCycle_of_fetch d1 hcall, execute_call _ _ _ hfam, haddr]
    simp [executeCall, hsp, finish, hsp1]
  have hf2 : fetch (tickTimers { s with
      stack := Function.update s.stack s.stackPointer s.programCounter,
      stackPointer := s.stackPointer + 1,
      programCounter := nnn }) = some 0x00EE := by
    simp [fetch, hret]
  have h2 : executeCycle (tickTimers { s with
      stack := Function.update s.stack s.stackPointer s.programCounter,
      stackPointer := s.stackPointer + 1,
      programCounter := nnn }) d2 = some
      { state := tickTimers { tickTimers { s with
            stack := Function.update s.stack s.stackPointer s.programCounter,
            stackPointer := s.stackPointer + 1,
            programCounter := nnn } with
          stackPointer := s.stackPointer,
          programCounter := s.programCounter + 2 },
        unknown := none } := by
    rw [executeCycle_of_fetch d2 hf2, execute_sys _ _ _ (by decide)]
    simp [executeSys, finish, advance, hsp2, hsp, hpc2]
  exact ⟨_, _, h1, by simp, by simp, by simp, h2, by simp, by simp⟩

/-- Witness for C6: a call to `0x206` from `0x200` with three addresses already
on the stack, and a return at `0x206`. -/
theorem call_then_return_witness :
    ∃ o1 o2, executeCycle (callMachine 3) 0 = some o1 ∧
      o1.state.programCounter = 0x206 ∧
      o1.state.stack 3 = 0x200 ∧
      o1.state.stackPointer = 4 ∧
      executeCycle o1.state 0 = some o2 ∧
      o2.state.programCounter = 0x202 ∧
      o2.state.stackPointer = 3 :=
  call_then_return (callMachine 3) 0 0 0x206 (by decide) (by decide) (by decide) (by decide)


/-! ## Decimal digits (`0xFx33`) -/

/-- C7: with the index register `I` at most 4093 and `v` the byte in register
`x`, one cycle on `0xFx33` writes `v / 100`, `(v / 10) mod 10` and `v mod 10` to
`memory[I]`, `memory[I+1]`, `memory[I+2]`; each is at most 9 and
`100 * memory[I] + 10 * memory[I+1] + memory[I+2] = v`; every other memory byte,
every register and the index register are unchanged. -/
theorem bcd_digits (s : Chip8) (draw x : Nat) (hx : x < 16)
    (hv : s.registers x < 256) (hI : s.indexRegister ≤ 4093)
    (hf : fetch s = some (0xF033 + x * 0x100)) :
    ∃ o, executeCycle s draw = some o ∧
      o.state.memory s.indexRegister = s.registers x / 100 ∧
      o.state.memory (s.indexRegister + 1) = (s.registers x / 10) % 10 ∧
      o.state.memory (s.indexRegister + 2) = s.registers x % 10 ∧
      o.state.memory s.indexRegister ≤ 9 ∧
      o.state.memory (s.indexRegister + 1) ≤ 9 ∧
      o.state.memory (s.indexRegister + 2) ≤ 9 ∧
      100 * o.state.memory s.indexRegister + 10 * o.state.memory (s.indexRegister + 1)
        + o.state.memory (s.indexRegister + 2) = s.registers x ∧
      (∀ a, a ≠ s.indexRegister → a ≠ s.indexRegister + 1 → a ≠ s.indexRegister + 2 →
        o.state.memory a = s.memory a) ∧
      o.state.registers = s.registers ∧
      o.state.indexRegister = s.indexRegister := by
  have hfam : (0xF033 + x * 0x100) &&& 0xF000 = 0xF000 := by
    rw [decode_family]; omega
  have hX : ((0xF033 + x * 0x100) &&& 0x0F00) >>> 8 = x := by
    rw [decode_regX]; omega
  have hB : (0xF033 + x * 0x100) &&& 0x00FF = 0x33 := by
    rw [decode_byteValue]; omega
  have hguard : s.indexRegister < 4096 ∧ s.indexRegister + 1 < 4096 ∧
      s.indexRegister + 2 < 4096 := by omega
  have h100 : s.registers x / 100 % 256 = s.registers x / 100 := by omega
  have h10 : s.registers x / 10 % 10 % 256 = s.registers x / 10 % 10 := by omega
  have h1 : s.registers x % 10 % 256 = s.registers x % 10 := by omega
  obtain ⟨m3, hm3⟩ : ∃ m3 : Nat → Nat, m3 =
      Function.update (Function.update (Function.update s.memory s.indexRegister
        (s.registers x / 100)) (s.indexRegister + 1) (s.registers x / 10 % 10))
        (s.indexRegister + 2) (s.registers x % 10) := ⟨_, rfl⟩
  have he : executeCycle s draw = some
      { state := tickTimers (advance { s with memory := m3 } 2), unknown := none } := by
    rw [executeCycle_of_fetch draw hf, execute_misc _ _ _ hfam, hX, hB, hm3]
    simp [executeMisc, hguard, finish, h100, h10, h1]
  refine ⟨_, he, ?_, ?_, ?_, ?_, ?_, ?_, ?_, ?_, by simp [advance], by simp [advance]⟩
  all_goals simp [advance, hm3, Function.update_apply]
  · omega
  · omega
  · omega
  · omega
  · intro a h0 h1 h2
    simp [h0, h1, h2]

/-- Witness for C7: the value 157 is written as the digits 1, 5, 7. -/
theorem bcd_digits_witness :
    ∃ o, executeCycle (bcdMachine 157) 0 = some o ∧
      o.state.memory 0x300 = 1 ∧ o.state.memory 0x301 = 5 ∧ o.state.memory 0x302 = 7 := by
  obtain ⟨o, h, h0, h1, h2, _⟩ :=
    bcd_digits (bcdMachine 157) 0 0 (by decide) (by decide) (by decide) (by decide)
  exact ⟨o, h, h0, h1, h2⟩


/-! ## Loading a program -/

/-- C9: `loadProgram` on the bytes `b` succeeds exactly when `length b ≤ 3584`.
On success `memory[0x200 + i] = b[i]` for every `i < length b` and every other
memory byte and every other member is unchanged; on failure the diagnostic is
`RomTooLarge` and the whole machine is unchanged. -/
theorem loadProgram_spec (s : Chip8) (b : List Nat) :
    ((loadProgram s (some b)).error = none ↔ b.length ≤ 3584) ∧
    (b.length ≤ 3584 →
      (∀ i (h : i < b.length), (loadProgram s (some b)).state.memory (0x200 + i) = b[i]) ∧
      (∀ a, a < 0x200 ∨ 0x200 + b.length ≤ a →
        (loadProgram s (some b)).state.memory a = s.memory a) ∧
      (loadProgram s (some b)).state.registers = s.registers ∧
      (loadProgram s (some b)).state.indexRegister = s.indexRegister ∧
      (loadProgram s (some b)).state.programCounter = s.programCounter ∧
      (loadProgram s (some b)).state.stackPointer = s.stackPointer ∧
      (loadProgram s (some b)).state.stack = s.stack ∧
      (loadProgram s (some b)).state.delayTimer = s.delayTimer ∧
      (loadProgram s (some b)).state.soundTimer = s.soundTimer ∧
      (loadProgram s (some b)).state.screen = s.screen ∧
      (loadProgram s (some b)).state.keys = s.keys) ∧
    (3584 < b.length →
      (loadProgram s (some b)).error = some LoadError.RomTooLarge ∧
      (loadProgram s (some b)).state = s) := by
  refine ⟨?_, ?_, ?_⟩
  · by_cases h : b.length ≤ 3584
    · have hn : ¬ b.length > 4096 - 512 := by omega
      simp [loadProgram, hn, h]
    · have hn : b.length > 4096 - 512 := by omega
      simp [loadProgram, hn, h]
  · intro h
    have hn : ¬ b.length > 4096 - 512 := by omega
    have hl : loadProgram s (some b) =
        { state := { s with memory := readInto s.memory b }, error := none } := by
      simp [loadProgram, hn]
    rw [hl]
    refine ⟨?_, ?_, rfl, rfl, rfl, rfl, rfl, rfl, rfl, rfl, rfl⟩
    · intro i hi
      have : 512 ≤ 0x200 + i ∧ 0x200 + i - 512 < b.length := by omega
      have hidx : 0x200 + i - 512 = i := by omega
      simp only [readInto, this, and_self, if_true, hidx]
      simp [List.getD_eq_getElem?_getD, hi]
    · intro a ha
      have : ¬ (512 ≤ a ∧ a - 512 < b.length) := by omega
      simp only [readInto, this, if_false]
  · intro h
    have hn : b.length > 4096 - 512 := by omega
    simp [loadProgram, hn]

/-- Witness for C9: a ROM of exactly 3584 bytes is accepted and one of 3585 bytes
is refused with `RomTooLarge`. -/
theorem loadProgram_spec_witness :
    (loadProgram (init zeroState) (some (List.replicate 3584 0))).error = none ∧
    (loadProgram (init zeroState) (some (List.replicate 3585 0))).error
      = some LoadError.RomTooLarge :=
  ⟨(loadProgram_spec (init zeroState) (List.replicate 3584 0)).1.2
      (by rw [List.length_replicate]),
   ((loadProgram_spec (init zeroState) (List.replicate 3585 0)).2.2
      (by rw [List.length_replicate]; omega)).1⟩

/-! ## Reset -/

theorem copyFont_apply (count start : Nat) (mem : Nat → Nat) (i : Nat) :
    copyFont count start mem i =
      if start ≤ i ∧ i < start + count then fontData.getD i 0 else mem i := by
  induction count generalizing start mem with
  | zero =>
    have : ¬ (start ≤ i ∧ i < start + 0) := by omega
    simp only [copyFont, this, if_false]
  | succ k ih =>
    rw [copyFont, ih]
    by_cases h1 : start + 1 ≤ i ∧ i < start + 1 + k
    · have h2 : start ≤ i ∧ i < start + (k + 1) := by omega
      simp only [h1, h2, and_self, if_true]
    · rw [if_neg h1]
      by_cases h3 : i = start
      · subst h3
        have h2 : i ≤ i ∧ i < i + (k + 1) := by omega
        simp only [Function.update_same, h2, and_self, if_true]
      · have h2 : ¬ (start ≤ i ∧ i < start + (k + 1)) := by omega
        simp only [Function.update_noteq h3, h2, if_false]

/-- C10: after `initialize` every register, stack slot, display pixel and key
and both timers are 0, the index register and stack pointer are 0, the program
counter is `0x200`, `memory[i]` is the `i`-th of the 80 font bytes for `i < 80`
and 0 from address 80 on; and running `initialize` again changes nothing. -/
theorem init_spec (s : Chip8) :
    (∀ i, (init s).registers i = 0) ∧
    (∀ i, (init s).stack i = 0) ∧
    (∀ p, (init s).screen p = 0) ∧
    (∀ k, (init s).keys k = 0) ∧
    (init s).delayTimer = 0 ∧ (init s).soundTimer = 0 ∧
    (init s).indexRegister = 0 ∧ (init s).stackPointer = 0 ∧
    (init s).programCounter = 0x200 ∧
    fontData.length = 80 ∧
    (∀ i, i < 80 → fontData[i]? = some ((init s).memory i)) ∧
    (∀ i, 80 ≤ i → (init s).memory i = 0) ∧
    init (init s) = init s := by
  refine ⟨fun _ => rfl, fun _ => rfl, fun _ => rfl, fun _ => rfl, rfl, rfl, rfl, rfl, rfl,
    rfl, ?_, ?_, rfl⟩
  · intro i hi
    have hlen : i < fontData.length := hi
    have hin : 0 ≤ i ∧ i < 0 + 80 := by omega
    simp only [init, copyFont_apply, hin, and_self, if_true]
    simp [List.getD_eq_getElem?_getD, hlen]
  · intro i hi
    have hin : ¬ (0 ≤ i ∧ i < 0 + 80) := by omega
    simp only [init, copyFont_apply, hin, if_false]

/-- Witness for C10: the first and last font bytes and the first byte after the
font, on a machine reset from an arbitrary earlier state. -/
theorem init_spec_witness :
    fontData[0]? = some ((init (arithMachine 0x14 9 9)).memory 0) ∧
    fontData[79]? = some ((init (arithMachine 0x14 9 9)).memory 79) ∧
    (init (arithMachine 0x14 9 9)).memory 80 = 0 :=
  ⟨(init_spec (arithMachine 0x14 9 9)).2.2.2.2.2.2.2.2.2.2.1 0 (by decide),
   (init_spec (arithMachine 0x14 9 9)).2.2.2.2.2.2.2.2.2.2.1 79 (by decide),
   (init_spec (arithMachine 0x14 9 9)).2.2.2.2.2.2.2.2.2.2.2.1 80 (by decide)⟩


/-! ## Drawing (`0xDxyn`) -/

theorem drawFrame_refl (s : Chip8) : DrawFrame s s :=
  ⟨rfl, rfl, rfl, rfl, rfl, rfl, rfl, rfl, fun _ _ => rfl⟩

theorem drawFrame_trans {s t u : Chip8} (h1 : DrawFrame s t) (h2 : DrawFrame t u) :
    DrawFrame s u := by
  obtain ⟨a1, a2, a3, a4, a5, a6, a7, a8, a9⟩ := h1
  obtain ⟨b1, b2, b3, b4, b5, b6, b7, b8, b9⟩ := h2
  exact ⟨b1.trans a1, b2.trans a2, b3.trans a3, b4.trans a4, b5.trans a5, b6.trans a6,
    b7.trans a7, b8.trans a8, fun i hi => (b9 i hi).trans (a9 i hi)⟩

theorem togglePixel_frame (s : Chip8) (p : Nat) : DrawFrame s (togglePixel s p) := by
  unfold togglePixel
  dsimp only
  split
  · exact ⟨rfl, rfl, rfl, rfl, rfl, rfl, rfl, rfl, fun i hi => Function.update_noteq hi _ _⟩
  · exact drawFrame_refl s

theorem togglePixel_screen (s : Chip8) (p q : Nat) :
    (togglePixel s p).screen q = if q = p then s.screen p ^^^ 1 else s.screen q := by
  unfold togglePixel
  dsimp only
  split <;> simp [Function.update_apply]

theorem togglePixel_flag (s : Chip8) (p : Nat) :
    (togglePixel s p).registers 0xF = if s.screen p = 1 then 1 else s.registers 0xF := by
  unfold togglePixel
  dsimp only
  split <;> simp

theorem applyToggles_cons (p : Nat) (ps : List Nat) (s : Chip8) :
    applyToggles (p :: ps) s = applyToggles ps (togglePixel s p) := rfl

theorem applyToggles_append (ps qs : List Nat) (s : Chip8) :
    applyToggles (ps ++ qs) s = applyToggles qs (applyToggles ps s) := by
  simp [applyToggles, List.foldl_append]

theorem applyToggles_frame (ps : List Nat) (s : Chip8) : DrawFrame s (applyToggles ps s) := by
  induction ps generalizing s with
  | nil => exact drawFrame_refl s
  | cons p ps ih => exact drawFrame_trans (togglePixel_frame s p) (ih _)

/-- Flipping a duplicate-free list of pixels flips exactly the listed ones. -/
theorem applyToggles_screen (ps : List Nat) (hnd : ps.Nodup) (s : Chip8) (q : Nat) :
    (applyToggles ps s).screen q = if q ∈ ps then s.screen q ^^^ 1 else s.screen q := by
  induction ps generalizing s with
  | nil => simp [applyToggles]
  | cons p ps ih =>
    rw [List.nodup_cons] at hnd
    rw [applyToggles_cons, ih hnd.2, togglePixel_screen]
    by_cases hq : q = p
    · subst hq
      simp [hnd.1]
    · simp [hq]

/-- The collision flag after flipping a duplicate-free list of pixels: 1 as soon
as one of them was 1 beforehand, otherwise what it was. -/
theorem applyToggles_flag (ps : List Nat) (hnd : ps.Nodup) (s : Chip8) :
    ((∃ p, p ∈ ps ∧ s.screen p = 1) → (applyToggles ps s).registers 0xF = 1) ∧
    ((∀ p, p ∈ ps → s.screen p ≠ 1) →
      (applyToggles ps s).registers 0xF = s.registers 0xF) := by
  induction ps generalizing s with
  | nil =>
    constructor
    · rintro ⟨p, hp, _⟩
      cases hp
    · intro _
      rfl
  | cons p ps ih =>
    rw [List.nodup_cons] at hnd
    have hscr : ∀ q, q ∈ ps → (togglePixel s p).screen q = s.screen q := by
      intro q hq
      have hne : q ≠ p := fun h => hnd.1 (h ▸ hq)
      rw [togglePixel_screen, if_neg hne]
    obtain ⟨ih1, ih2⟩ := ih hnd.2 (togglePixel s p)
    rw [applyToggles_cons]
    constructor
    · rintro ⟨q, hq, hq1⟩
      by_cases hex : ∃ q, q ∈ ps ∧ s.screen q = 1
      · obtain ⟨q2, hq2, hq21⟩ := hex
        exact ih1 ⟨q2, hq2, (hscr q2 hq2).trans hq21⟩
      · have hqp : q = p := by
          rcases List.mem_cons.mp hq with h | h
          · exact h
          · exact absurd ⟨q, h, hq1⟩ hex
        subst hqp
        have hnone : ∀ q2, q2 ∈ ps → (togglePixel s q).screen q2 ≠ 1 := by
          intro q2 hq2 h1
          exact hex ⟨q2, hq2, (hscr q2 hq2).symm.trans h1⟩
        rw [ih2 hnone, togglePixel_flag, if_pos hq1]
    · intro hall
      have hnone : ∀ q2, q2 ∈ ps → (togglePixel s p).screen q2 ≠ 1 := by
        intro q2 hq2 h1
        exact hall q2 (List.mem_cons_of_mem _ hq2) ((hscr q2 hq2).symm.trans h1)
      rw [ih2 hnone, togglePixel_flag, if_neg (hall p (List.mem_cons_self _ _))]


theorem rowTargets_cons (vx vy row m c : Nat) (cs : List Nat) :
    rowTargets vx vy row m (c :: cs) =
      if m &&& (0x80 >>> c) ≠ 0 then pixelIndex vx vy row c :: rowTargets vx vy row m cs
      else rowTargets vx vy row m cs := by
  unfold rowTargets
  by_cases h : m &&& (0x80 >>> c) ≠ 0
  · simp [List.filter_cons, h]
  · simp [List.filter_cons, h]

/-- With both coordinate selectors different from `0xF`, the column loop flips
the pixels of `rowTargets` computed from the registers at loop entry. -/
theorem foldl_drawBit_eq (regX regY row m : Nat) (hx : regX ≠ 0xF) (hy : regY ≠ 0xF)
    (cols : List Nat) (s : Chip8) :
    cols.foldl (drawBit regX regY row m) s =
      applyToggles (rowTargets (s.registers regX) (s.registers regY) row m cols) s := by
  induction cols generalizing s with
  | nil => rfl
  | cons c cs ih =>
    rw [List.foldl_cons, ih, rowTargets_cons]
    unfold drawBit
    by_cases h : m &&& (0x80 >>> c) ≠ 0
    · rw [if_pos h, if_pos h, applyToggles_cons]
      have hf := togglePixel_frame s
        (pixelIndex (s.registers regX) (s.registers regY) row c)
      rw [hf.2.2.2.2.2.2.2.2 regX hx, hf.2.2.2.2.2.2.2.2 regY hy]
    · rw [if_neg h, if_neg h]

/-- With both coordinate selectors different from `0xF` and the sprite rows
inside memory, the row loop completes and flips the pixels of `targets`. -/
theorem drawRows_eq (regX regY : Nat) (hx : regX ≠ 0xF) (hy : regY ≠ 0xF)
    (count row : Nat) (s : Chip8) (hI : s.indexRegister + row + count ≤ 4096) :
    drawRows regX regY count row s = some (applyToggles
      (targets (fun r => s.memory (s.indexRegister + r)) (s.registers regX) (s.registers regY)
        count row) s) := by
  induction count generalizing row s with
  | zero => rfl
  | succ k ih =>
    have hb : s.indexRegister + row < 4096 := by omega
    rw [drawRows, if_pos hb, drawRow, foldl_drawBit_eq _ _ _ _ hx hy]
    have hf := applyToggles_frame
      (rowTargets (s.registers regX) (s.registers regY) row
        (s.memory (s.indexRegister + row)) (List.range 8)) s
    rw [ih (row + 1) _ (by rw [hf.2.1]; omega)]
    rw [hf.1, hf.2.1, hf.2.2.2.2.2.2.2.2 regX hx, hf.2.2.2.2.2.2.2.2 regY hy]
    rw [targets, applyToggles_append]

theorem mem_rowTargets (vx vy row m : Nat) (cols : List Nat) (q : Nat) :
    q ∈ rowTargets vx vy row m cols ↔
      ∃ col, col ∈ cols ∧ m &&& (0x80 >>> col) ≠ 0 ∧ q = pixelIndex vx vy row col := by
  unfold rowTargets
  simp only [List.mem_map, List.mem_filter, decide_eq_true_eq]
  constructor
  · rintro ⟨c, ⟨hc, hb⟩, rfl⟩
    exact ⟨c, hc, hb, rfl⟩
  · rintro ⟨c, hc, hb, rfl⟩
    exact ⟨c, ⟨hc, hb⟩, rfl⟩

theorem mem_targets (sprite : Nat → Nat) (vx vy count row q : Nat) :
    q ∈ targets sprite vx vy count row ↔
      ∃ r col, row ≤ r ∧ r < row + count ∧ col < 8 ∧
        sprite r &&& (0x80 >>> col) ≠ 0 ∧ q = pixelIndex vx vy r col := by
  induction count generalizing row with
  | zero =>
    simp only [targets, List.not_mem_nil, false_iff]
    rintro ⟨r, c, h1, h2, _⟩
    omega
  | succ k ih =>
    rw [targets, List.mem_append, mem_rowTargets, ih]
    constructor
    · rintro (⟨c, hc, hb, rfl⟩ | ⟨r, c, h1, h2, hc, hb, rfl⟩)
      · exact ⟨row, c, le_refl _, by omega, List.mem_range.mp hc, hb, rfl⟩
      · exact ⟨r, c, by omega, by omega, hc, hb, rfl⟩
    · rintro ⟨r, c, h1, h2, hc, hb, rfl⟩
      by_cases hr : r = row
      · subst hr
        exact Or.inl ⟨c, List.mem_range.mpr hc, hb, rfl⟩
      · exact Or.inr ⟨r, c, by omega, by omega, hc, hb, rfl⟩

/-- Two sprite bits less than 32 rows apart and in columns below 64 land on
different pixels. -/
theorem pixelIndex_inj (vx vy r1 c1 r2 c2 : Nat) (hc1 : c1 < 64) (hc2 : c2 < 64)
    (hr : r1 < r2 + 32) (hr2 : r2 < r1 + 32)
    (h : pixelIndex vx vy r1 c1 = pixelIndex vx vy r2 c2) : r1 = r2 ∧ c1 = c2 := by
  unfold pixelIndex at h
  omega

theorem pixelIndex_lt (vx vy row col : Nat) : pixelIndex vx vy row col < 2048 := by
  unfold pixelIndex
  omega

theorem nodup_rowTargets (vx vy row m : Nat) : (rowTargets vx vy row m (List.range 8)).Nodup := by
  unfold rowTargets
  refine List.Nodup.map_on ?_ ((List.nodup_range 8).filter _)
  intro a ha b hb hab
  have ha8 : a < 8 := List.mem_range.mp (List.mem_of_mem_filter ha)
  have hb8 : b < 8 := List.mem_range.mp (List.mem_of_mem_filter hb)
  exact (pixelIndex_inj vx vy row a row b (by omega) (by omega) (by omega) (by omega) hab).2

theorem nodup_targets (sprite : Nat → Nat) (vx vy count row : Nat) (hc : count ≤ 32) :
    (targets sprite vx vy count row).Nodup := by
  induction count generalizing row with
  | zero => exact List.nodup_nil
  | succ k ih =>
    rw [targets, List.nodup_append]
    refine ⟨nodup_rowTargets _ _ _ _, ih (row + 1) (by omega), ?_⟩
    intro q hq1 hq2
    rw [mem_rowTargets] at hq1
    rw [mem_targets] at hq2
    obtain ⟨c1, hc1, _, rfl⟩ := hq1
    obtain ⟨r2, c2, h1, h2, hc2, _, heq⟩ := hq2
    have hc18 : c1 < 8 := List.mem_range.mp hc1
    have := (pixelIndex_inj vx vy row c1 r2 c2 (by omega) (by omega) (by omega) (by omega) heq).1
    omega


theorem mem_targets_iff_spriteHits (u : Chip8) (x y n q : Nat) :
    q ∈ targets (fun r => u.memory (u.indexRegister + r)) (u.registers x) (u.registers y) n 0
      ↔ SpriteHits u x y n q := by
  rw [mem_targets]
  unfold SpriteHits
  constructor
  · rintro ⟨r, c, _, h2, hc, hb, hq⟩
    exact ⟨r, c, by omega, hc, hb, hq⟩
  · rintro ⟨r, c, h2, hc, hb, hq⟩
    exact ⟨r, c, Nat.zero_le _, by omega, hc, hb, hq⟩

/-- What `0xDxyn` does when neither selector is `0xF` and the sprite lies inside
memory: it completes, flips exactly the pixels hit by a set sprite bit, sets `VF`
to 1 if one of them was 1 before and to 0 otherwise, and advances by 2. -/
theorem executeDraw_spec (u : Chip8) (n x y : Nat) (hx : x ≠ 0xF) (hy : y ≠ 0xF)
    (hn : n ≤ 32) (hI : u.indexRegister + n ≤ 4096) :
    ∃ v, executeDraw u n x y = some { state := v, unknown := none } ∧
      (∀ q, SpriteHits u x y n q → v.screen q = u.screen q ^^^ 1) ∧
      (∀ q, ¬ SpriteHits u x y n q → v.screen q = u.screen q) ∧
      ((∃ q, SpriteHits u x y n q ∧ u.screen q = 1) → v.registers 0xF = 1) ∧
      ((∀ q, SpriteHits u x y n q → u.screen q ≠ 1) → v.registers 0xF = 0) ∧
      v.programCounter = (u.programCounter + 2) % 65536 ∧
      v.memory = u.memory ∧ v.indexRegister = u.indexRegister ∧
      (∀ i, i ≠ 0xF → v.registers i = u.registers i) := by
  obtain ⟨u0, hu0⟩ : ∃ u0 : Chip8,
      u0 = { u with registers := Function.update u.registers 0xF 0 } := ⟨_, rfl⟩
  have hrx : u0.registers x = u.registers x := by rw [hu0]; exact Function.update_noteq hx _ _
  have hry : u0.registers y = u.registers y := by rw [hu0]; exact Function.update_noteq hy _ _
  have hmem : u0.memory = u.memory := by rw [hu0]
  have hidx : u0.indexRegister = u.indexRegister := by rw [hu0]
  have hscr : u0.screen = u.screen := by rw [hu0]
  have hrun := drawRows_eq x y hx hy n 0 u0 (by rw [hidx]; omega)
  rw [hrx, hry, hmem, hidx] at hrun
  have hnd := nodup_targets (fun r => u.memory (u.indexRegister + r))
    (u.registers x) (u.registers y) n 0 hn
  have hfr := applyToggles_frame
    (targets (fun r => u.memory (u.indexRegister + r)) (u.registers x) (u.registers y) n 0) u0
  have hs := applyToggles_screen _ hnd u0
  have hfl := applyToggles_flag _ hnd u0
  refine ⟨advance (applyToggles
    (targets (fun r => u.memory (u.indexRegister + r)) (u.registers x) (u.registers y) n 0)
    u0) 2, ?_, ?_, ?_, ?_, ?_, ?_, ?_, ?_, ?_⟩
  · unfold executeDraw
    rw [← hu0, hrun]
    rfl
  · intro q hq
    show (applyToggles _ u0).screen q = _
    rw [hs q, if_pos ((mem_targets_iff_spriteHits u x y n q).mpr hq), hscr]
  · intro q hq
    show (applyToggles _ u0).screen q = _
    rw [hs q, if_neg (fun h => hq ((mem_targets_iff_spriteHits u x y n q).mp h)), hscr]
  · rintro ⟨q, hq, hq1⟩
    show (applyToggles _ u0).registers 0xF = 1
    exact hfl.1 ⟨q, (mem_targets_iff_spriteHits u x y n q).mpr hq, by rw [hscr]; exact hq1⟩
  · intro hall
    show (applyToggles _ u0).registers 0xF = 0
    rw [hfl.2 (fun p hp => by
      rw [hscr]; exact hall p ((mem_targets_iff_spriteHits u x y n p).mp hp))]
    rw [hu0]
    exact Function.update_same (0xF : Nat) 0 u.registers
  · show ((applyToggles _ u0).programCounter + 2) % 65536 = _
    rw [hfr.2.2.1, hu0]
  · show (applyToggles _ u0).memory = _
    rw [hfr.1, hmem]
  · show (applyToggles _ u0).indexRegister = _
    rw [hfr.2.1, hidx]
  · intro i hi
    show (applyToggles _ u0).registers i = _
    rw [hfr.2.2.2.2.2.2.2.2 i hi, hu0]
    exact Function.update_noteq hi _ _

/-- The test of line 207, `spriteRow & (0x80 >> col)`, reads bit `7 - col`. -/
theorem spriteBit_iff_testBit (m col : Nat) (hc : col < 8) :
    m &&& (0x80 >>> col) ≠ 0 ↔ m.testBit (7 - col) = true := by
  have h2 : (0x80 : Nat) >>> col = 2 ^ (7 - col) := by
    interval_cases col <;> rfl
  rw [h2, Nat.and_two_pow]
  cases m.testBit (7 - col) <;> simp

theorem spriteHits_iff_spritePixel (s : Chip8) (x y n r c : Nat) (hc : c < 64) :
    SpriteHits s x y n (r * 64 + c) ↔ r < 32 ∧ SpritePixel s x y n r c := by
  unfold SpriteHits SpritePixel pixelIndex
  constructor
  · rintro ⟨row, col, h1, h2, hb, hq⟩
    refine ⟨by omega, row, col, h1, h2, by omega, by omega, ?_⟩
    exact (spriteBit_iff_testBit _ col h2).mp hb
  · rintro ⟨_, row, col, h1, h2, hr, hcc, hb⟩
    refine ⟨row, col, h1, h2, (spriteBit_iff_testBit _ col h2).mpr hb, ?_⟩
    omega


theorem spriteHits_congr (s t : Chip8) (x y n q : Nat)
    (hm : ∀ row, row < n → t.memory (t.indexRegister + row) = s.memory (s.indexRegister + row))
    (hrx : t.registers x = s.registers x) (hry : t.registers y = s.registers y) :
    SpriteHits t x y n q ↔ SpriteHits s x y n q := by
  unfold SpriteHits
  constructor
  · rintro ⟨row, col, h1, h2, hb, hq⟩
    exact ⟨row, col, h1, h2, by rw [← hm row h1]; exact hb, by rw [← hrx, ← hry]; exact hq⟩
  · rintro ⟨row, col, h1, h2, hb, hq⟩
    exact ⟨row, col, h1, h2, by rw [hm row h1]; exact hb, by rw [hrx, hry]; exact hq⟩

/-- One whole cycle on `0xDxyn` with neither selector `0xF` and the sprite inside
memory. -/
theorem executeCycle_draw (u : Chip8) (draw x y n : Nat) (hx : x < 16) (hxF : x ≠ 0xF)
    (hy : y < 16) (hyF : y ≠ 0xF) (hn : n < 16) (hI : u.indexRegister + n ≤ 4096)
    (hf : fetch u = some (0xD000 + x * 0x100 + y * 0x10 + n)) :
    ∃ o, executeCycle u draw = some o ∧
      (∀ q, SpriteHits u x y n q → o.state.screen q = u.screen q ^^^ 1) ∧
      (∀ q, ¬ SpriteHits u x y n q → o.state.screen q = u.screen q) ∧
      ((∃ q, SpriteHits u x y n q ∧ u.screen q = 1) → o.state.registers 0xF = 1) ∧
      ((∀ q, SpriteHits u x y n q → u.screen q ≠ 1) → o.state.registers 0xF = 0) ∧
      o.state.programCounter = u.programCounter + 2 ∧
      o.state.memory = u.memory ∧ o.state.indexRegister = u.indexRegister ∧
      (∀ i, i ≠ 0xF → o.state.registers i = u.registers i) := by
  have hpc := fetch_bound hf
  have hfam : (0xD000 + x * 0x100 + y * 0x10 + n) &&& 0xF000 = 0xD000 := by
    rw [decode_family]; omega
  have hX : ((0xD000 + x * 0x100 + y * 0x10 + n) &&& 0x0F00) >>> 8 = x := by
    rw [decode_regX]; omega
  have hY : ((0xD000 + x * 0x100 + y * 0x10 + n) &&& 0x00F0) >>> 4 = y := by
    rw [decode_regY]; omega
  have hN : (0xD000 + x * 0x100 + y * 0x10 + n) &&& 0x000F = n := by
    rw [decode_nibble]; omega
  obtain ⟨v, hv, h1, h2, h3, h4, h5, h6, h7, h8⟩ :=
    executeDraw_spec u n x y hxF hyF (by omega) hI
  refine ⟨{ state := tickTimers v, unknown := none }, ?_, ?_, ?_, ?_, ?_, ?_, ?_, ?_, ?_⟩
  · rw [executeCycle_of_fetch draw hf, execute_draw _ _ _ hfam, hX, hY, hN, hv]
    rfl
  · intro q hq
    simpa using h1 q hq
  · intro q hq
    simpa using h2 q hq
  · intro hq
    simpa using h3 hq
  · intro hq
    simpa using h4 hq
  · simp only [tickTimers_programCounter, h5]
    omega
  · simpa using h6
  · simpa using h7
  · intro i hi
    simpa using h8 i hi

/-! ## Clear, then draw -/

/-- C2: with neither selector `0xF`, `n` below 16 and `I + n ≤ 4096`, executing
`0x00E0` and then `0xDxyn` leaves pixel `(r, c)` at 1 exactly when it is the
wrapped position of a set sprite bit (most significant bit first), every other
pixel at 0, and `VF` at 0. -/
theorem clear_then_draw (s : Chip8) (d1 d2 x y n : Nat) (hx : x < 16) (hxF : x ≠ 0xF)
    (hy : y < 16) (hyF : y ≠ 0xF) (hn : n < 16) (hI : s.indexRegister + n ≤ 4096)
    (hclear : fetch s = some 0x00E0)
    (hdraw : wordAt s.memory (s.programCounter + 2)
      = some (0xD000 + x * 0x100 + y * 0x10 + n)) :
    ∃ o1 o2, executeCycle s d1 = some o1 ∧ executeCycle o1.state d2 = some o2 ∧
      (∀ r c, r < 32 → c < 64 →
        (SpritePixel s x y n r c → o2.state.screen (r * 64 + c) = 1) ∧
        (¬ SpritePixel s x y n r c → o2.state.screen (r * 64 + c) = 0)) ∧
      o2.state.registers 0xF = 0 := by
  have hpc := fetch_bound hclear
  have hpc2 : (s.programCounter + 2) % 65536 = s.programCounter + 2 := by omega
  obtain ⟨s1, hs1⟩ : ∃ s1 : Chip8,
      s1 = tickTimers (advance { s with screen := fun _ => 0 } 2) := ⟨_, rfl⟩
  have h1 : executeCycle s d1 = some { state := s1, unknown := none } := by
    rw [executeCycle_of_fetch d1 hclear, execute_sys _ _ _ (by decide), hs1]
    simp [executeSys, finish]
  have hscr : ∀ q, s1.screen q = 0 := by
    intro q; rw [hs1]; simp [advance]
  have hmem : s1.memory = s.memory := by rw [hs1]; simp [advance]
  have hidx : s1.indexRegister = s.indexRegister := by rw [hs1]; simp [advance]
  have hreg : s1.registers = s.registers := by rw [hs1]; simp [advance]
  have hf2 : fetch s1 = some (0xD000 + x * 0x100 + y * 0x10 + n) := by
    rw [hs1]
    simp [fetch, advance, hpc2, hdraw]
  obtain ⟨o2, ho2, a1, a2, _, a4, _⟩ :=
    executeCycle_draw s1 d2 x y n hx hxF hy hyF hn (by rw [hidx]; exact hI) hf2
  have hcongr : ∀ q, SpriteHits s1 x y n q ↔ SpriteHits s x y n q := fun q =>
    spriteHits_congr s s1 x y n q (fun row _ => by rw [hmem, hidx]) (by rw [hreg])
      (by rw [hreg])
  refine ⟨_, o2, h1, ho2, ?_, ?_⟩
  · intro r c hr hc
    constructor
    · intro hp
      have hh : SpriteHits s1 x y n (r * 64 + c) :=
        (hcongr _).mpr ((spriteHits_iff_spritePixel s x y n r c hc).mpr ⟨hr, hp⟩)
      rw [a1 _ hh, hscr]
      rfl
    · intro hp
      have hh : ¬ SpriteHits s1 x y n (r * 64 + c) := fun h =>
        hp ((spriteHits_iff_spritePixel s x y n r c hc).mp ((hcongr _).mp h)).2
      rw [a2 _ hh, hscr]
  · apply a4
    intro q _
    rw [hscr]
    decide

/-- Witness for C2: a three-row sprite drawn at `(62, 30)` after a clear wraps
around both edges; the top-left bit lands on row 30, column 62 and row 31,
column 2 stays dark. -/
theorem clear_then_draw_witness :
    ∃ o1 o2, executeCycle clearDrawMachine 0 = some o1 ∧
      executeCycle o1.state 0 = some o2 ∧
      o2.state.screen (30 * 64 + 62) = 1 ∧ o2.state.screen (31 * 64 + 2) = 0 ∧
      o2.state.registers 0xF = 0 := by
  obtain ⟨o1, o2, h1, h2, hpix, hflag⟩ :=
    clear_then_draw clearDrawMachine 0 0 1 2 3 (by decide) (by decide) (by decide)
      (by decide) (by decide) (by decide) (by decide) (by decide)
  refine ⟨o1, o2, h1, h2, ?_, ?_, hflag⟩
  · exact (hpix 30 62 (by decide) (by decide)).1 ⟨0, 0, by decide⟩
  · refine (hpix 31 2 (by decide) (by decide)).2 ?_
    rintro ⟨row, col, hrow, hcol, hr, hc, hb⟩
    have hx1 : clearDrawMachine.registers 1 = 62 := rfl
    have hy2 : clearDrawMachine.registers 2 = 30 := rfl
    rw [hx1] at hc
    rw [hy2] at hr
    have hrow : row = 1 := by omega
    have hcol : col = 4 := by omega
    subst hrow hcol
    revert hb
    decide


/-! ## Drawing twice -/

/-- C3 (the code departs from the claim): on a freshly booted machine (display
clear, `VF = V0 = 0`, sprite byte `0xF0`) the word `0xDF01` is executed twice;
`VF`, `V0`, the index register and the sprite byte are the same before both
draws, yet pixels 1 and 4 are lit afterwards instead of the display being clear
again.  The draw reads `registers[regX]` inside its loop, after it has written
`registers[0xF]`, so the second draw takes its x coordinate from the collision
flag it has just set. -/
theorem draw_twice_flag_selector_not_restored :
    ∃ o1 o2, executeCycle flagSelectorMachine 0 = some o1 ∧
      executeCycle o1.state 0 = some o2 ∧
      fetch flagSelectorMachine = some 0xDF01 ∧ fetch o1.state = some 0xDF01 ∧
      (∀ p, flagSelectorMachine.screen p = 0) ∧
      o1.state.registers 0xF = flagSelectorMachine.registers 0xF ∧
      o1.state.registers 0 = flagSelectorMachine.registers 0 ∧
      o1.state.indexRegister = flagSelectorMachine.indexRegister ∧
      o1.state.memory 0 = flagSelectorMachine.memory 0 ∧
      flagSelectorMachine.memory 0 = 0xF0 ∧
      o2.state.screen 1 = 1 ∧ o2.state.screen 4 = 1 := by
  refine ⟨_, _, rfl, rfl, ?_, ?_, fun _ => rfl, ?_, ?_, ?_, ?_, ?_, ?_, ?_⟩ <;> decide

/-- Drawing twice with selectors other than `0xF`, where the flag write cannot
reach the coordinates: on a clear display, after one cycle on `0xDxyn` (which
leaves memory, the index register, `Vx`, `Vy` as they were and the program
counter 2 further), a cycle on the same word from any state with that display,
the same index register, sprite bytes and `Vx`, `Vy` leaves the display clear
again, with `VF = 1` if some sprite row has a set bit. -/
theorem draw_twice_restores (s : Chip8) (d1 d2 x y n : Nat) (hx : x < 16) (hxF : x ≠ 0xF)
    (hy : y < 16) (hyF : y ≠ 0xF) (hn : n < 16) (hI : s.indexRegister + n ≤ 4096)
    (hoff : ∀ p, p < 2048 → s.screen p = 0)
    (hf : fetch s = some (0xD000 + x * 0x100 + y * 0x10 + n)) :
    ∃ o1, executeCycle s d1 = some o1 ∧
      o1.state.memory = s.memory ∧ o1.state.indexRegister = s.indexRegister ∧
      o1.state.registers x = s.registers x ∧ o1.state.registers y = s.registers y ∧
      o1.state.programCounter = s.programCounter + 2 ∧
      ∀ t : Chip8, fetch t = some (0xD000 + x * 0x100 + y * 0x10 + n) →
        (∀ p, p < 2048 → t.screen p = o1.state.screen p) →
        t.indexRegister = s.indexRegister →
        (∀ row, row < n →
          t.memory (s.indexRegister + row) = s.memory (s.indexRegister + row)) →
        t.registers x = s.registers x → t.registers y = s.registers y →
        ∃ o2, executeCycle t d2 = some o2 ∧
          (∀ p, p < 2048 → o2.state.screen p = 0) ∧
          ((∃ row col, row < n ∧ col < 8 ∧
              (s.memory (s.indexRegister + row)).testBit (7 - col) = true) →
            o2.state.registers 0xF = 1) := by
  obtain ⟨o1, ho1, a1, a2, _, _, apc, amem, aidx, areg⟩ :=
    executeCycle_draw s d1 x y n hx hxF hy hyF hn hI hf
  refine ⟨o1, ho1, amem, aidx, areg x hxF, areg y hyF, apc, ?_⟩
  intro t hft hscr hidx hmem hrx hry
  obtain ⟨o2, ho2, b1, b2, b3, _⟩ :=
    executeCycle_draw t d2 x y n hx hxF hy hyF hn (by rw [hidx]; exact hI) hft
  have hcongr : ∀ q, SpriteHits t x y n q ↔ SpriteHits s x y n q := fun q =>
    spriteHits_congr s t x y n q (fun row hrow => by rw [hidx]; exact hmem row hrow) hrx hry
  have hlit : ∀ q, q < 2048 → SpriteHits s x y n q → t.screen q = 1 := by
    intro q hq hh
    rw [hscr q hq, a1 q hh, hoff q hq]
    rfl
  refine ⟨o2, ho2, ?_, ?_⟩
  · intro p hp
    by_cases hh : SpriteHits s x y n p
    · rw [b1 p ((hcongr p).mpr hh), hlit p hp hh]
      rfl
    · rw [b2 p (fun h => hh ((hcongr p).mp h)), hscr p hp, a2 p hh, hoff p hp]
  · rintro ⟨row, col, hrow, hcol, hb⟩
    have hh : SpriteHits s x y n (pixelIndex (s.registers x) (s.registers y) row col) :=
      ⟨row, col, hrow, hcol, (spriteBit_iff_testBit _ col hcol).mpr hb, rfl⟩
    exact b3 ⟨_, (hcongr _).mpr hh, hlit _ (pixelIndex_lt _ _ _ _) hh⟩

/-- An instance of drawing twice: the glyph of digit 2 drawn twice in a row at
`(62, 30)` with selectors 1 and 2. -/
theorem draw_twice_restores_witness :
    ∃ o1 o2, executeCycle drawTwiceMachine 0 = some o1 ∧
      executeCycle o1.state 0 = some o2 ∧
      (∀ p, p < 2048 → o2.state.screen p = 0) ∧ o2.state.registers 0xF = 1 := by
  obtain ⟨o1, h1, hmem, hidx, hrx, hry, hpc, hall⟩ :=
    draw_twice_restores drawTwiceMachine 0 0 1 2 5 (by decide) (by decide) (by decide)
      (by decide) (by decide) (by decide) (fun _ _ => rfl) (by decide)
  have hft : fetch o1.state = some (0xD000 + 1 * 0x100 + 2 * 0x10 + 5) := by
    unfold fetch
    rw [hmem, hpc]
    decide
  obtain ⟨o2, h2, hclear, hflag⟩ :=
    hall o1.state hft (fun _ _ => rfl) hidx (fun row _ => by rw [hmem]) hrx hry
  exact ⟨o1, o2, h1, h2, hclear, hflag ⟨0, 0, by decide⟩⟩

/-! ## Keys -/

/-- C11: for `0 ≤ index < 16`, `setKey` makes `keys[index]` 1 when `pressed` and
0 otherwise and leaves every other key and every other member unchanged; for an
index outside that range the whole state is unchanged (the function has no error
result). -/
theorem setKey_spec (s : Chip8) (index : Int) (pressed : Bool) :
    (0 ≤ index ∧ index < 16 →
      (setKey s index pressed).keys index.toNat = (if pressed then 1 else 0) ∧
      (∀ k, k ≠ index.toNat → (setKey s index pressed).keys k = s.keys k) ∧
      (setKey s index pressed).memory = s.memory ∧
      (setKey s index pressed).registers = s.registers ∧
      (setKey s index pressed).indexRegister = s.indexRegister ∧
      (setKey s index pressed).programCounter = s.programCounter ∧
      (setKey s index pressed).stackPointer = s.stackPointer ∧
      (setKey s index pressed).stack = s.stack ∧
      (setKey s index pressed).delayTimer = s.delayTimer ∧
      (setKey s index pressed).soundTimer = s.soundTimer ∧
      (setKey s index pressed).screen = s.screen) ∧
    (index < 0 ∨ 16 ≤ index → setKey s index pressed = s) := by
  constructor
  · intro h
    have hc : index ≥ 0 ∧ index < 16 := h
    have hs : setKey s index pressed =
        { s with keys := Function.update s.keys index.toNat (if pressed then 1 else 0) } := by
      unfold setKey
      rw [if_pos hc]
    rw [hs]
    refine ⟨Function.update_same _ _ _, ?_, rfl, rfl, rfl, rfl, rfl, rfl, rfl, rfl, rfl⟩
    intro k hk
    exact Function.update_noteq hk _ _
  · intro h
    have hc : ¬ (index ≥ 0 ∧ index < 16) := by omega
    simp only [setKey, hc, if_false]

/-- Witness for C11: pressing key 7 sets `keys[7]` and nothing else; index 16 and
index -1 are ignored. -/
theorem setKey_spec_witness :
    (setKey (boot []) 7 true).keys 7 = 1 ∧ (setKey (boot []) 7 true).keys 6 = 0 ∧
    setKey (boot []) 16 true = boot [] ∧ setKey (boot []) (-1) true = boot [] :=
  ⟨((setKey_spec (boot []) 7 true).1 (by decide)).1,
   ((setKey_spec (boot []) 7 true).1 (by decide)).2.1 6 (by decide),
   (setKey_spec (boot []) 16 true).2 (by decide),
   (setKey_spec (boot []) (-1) true).2 (by decide)⟩

/-! ## Display index -/

/-- C18: the index into `screen` that the draw instruction computes,
`((Vy + row) mod 32) * 64 + ((Vx + col) mod 64)`, is below 2048 whatever the
operands are, and one pass of the body of the column loop changes no cell of
`screen` other than the one at that index. -/
theorem pixel_index_in_range (vx vy row col : Nat) :
    pixelIndex vx vy row col = ((vy + row) % 32) * 64 + ((vx + col) % 64) ∧
    pixelIndex vx vy row col < 64 * 32 ∧
    ∀ (s : Chip8) (regX regY spriteRow q : Nat),
      q ≠ pixelIndex (s.registers regX) (s.registers regY) row col →
      (drawBit regX regY row spriteRow s col).screen q = s.screen q := by
  refine ⟨rfl, pixelIndex_lt vx vy row col, ?_⟩
  intro s regX regY spriteRow q hq
  unfold drawBit
  split
  · rw [togglePixel_screen, if_neg hq]
  · rfl

/-- Witness for C18: the largest operands of the claim, `Vx = Vy = 255`, row 14,
column 7, give index 838. -/
theorem pixel_index_in_range_witness :
    pixelIndex 255 255 14 7 = 838 ∧ pixelIndex 255 255 14 7 < 64 * 32 :=
  ⟨(pixel_index_in_range 255 255 14 7).1.trans (by decide),
   (pixel_index_in_range 255 255 14 7).2.1⟩

/-! ## Skips (`0x3xkk`, `0x4xkk`, `0x5xy0`, `0x9xy0`) -/

theorem execute_skipEq (s : Chip8) (draw w : Nat) (h : w &&& 0xF000 = 0x3000) :
    execute s draw w = finish (advance s
      (if s.registers ((w &&& 0x0F00) >>> 8) = w &&& 0x00FF then 4 else 2)) := by
  simp [execute, h]

theorem execute_skipNe (s : Chip8) (draw w : Nat) (h : w &&& 0xF000 = 0x4000) :
    execute s draw w = finish (advance s
      (if s.registers ((w &&& 0x0F00) >>> 8) ≠ w &&& 0x00FF then 4 else 2)) := by
  simp [execute, h]

theorem execute_skipRegEq (s : Chip8) (draw w : Nat) (h : w &&& 0xF000 = 0x5000) :
    execute s draw w = finish (advance s
      (if s.registers ((w &&& 0x0F00) >>> 8) = s.registers ((w &&& 0x00F0) >>> 4)
        then 4 else 2)) := by
  simp [execute, h]

theorem execute_skipRegNe (s : Chip8) (draw w : Nat) (h : w &&& 0xF000 = 0x9000) :
    execute s draw w = finish (advance s
      (if s.registers ((w &&& 0x0F00) >>> 8) ≠ s.registers ((w &&& 0x00F0) >>> 4)
        then 4 else 2)) := by
  simp [execute, h]

/-- A cycle whose instruction only adds `k` (2 or 4) to the program counter. -/
theorem executeCycle_advance (s : Chip8) (draw w k : Nat) (hk : k ≤ 4)
    (hf : fetch s = some w) (he : execute s draw w = finish (advance s k)) :
    ∃ o, executeCycle s draw = some o ∧ o.state.programCounter = s.programCounter + k ∧
      SkipFrame s o.state := by
  have hpc := fetch_bound hf
  refine ⟨{ state := tickTimers (advance s k), unknown := none }, ?_, ?_, ?_⟩
  · rw [executeCycle_of_fetch draw hf, he]
    rfl
  · simp only [tickTimers_programCounter, advance]
    omega
  · exact ⟨by simp [advance], by simp [advance], by simp [advance], by simp [advance],
      by simp [advance], by simp [advance], by simp [advance]⟩

/-- C13: one cycle on `0x3xkk` advances the program counter by 4 if `Vx = kk` and
by 2 otherwise; on `0x4xkk` by 4 if `Vx ≠ kk`, else 2; on `0x5xy0` by 4 if
`Vx = Vy`, else 2; on `0x9xy0` by 4 if `Vx ≠ Vy`, else 2; registers, index
register, stack, stack pointer, memory, display and keys are unchanged. -/
theorem skip_instructions (s : Chip8) (draw x y kk : Nat) (hx : x < 16) (hy : y < 16)
    (hkk : kk < 256) :
    (fetch s = some (0x3000 + x * 0x100 + kk) →
      ∃ o, executeCycle s draw = some o ∧
        o.state.programCounter = s.programCounter + (if s.registers x = kk then 4 else 2) ∧
        SkipFrame s o.state) ∧
    (fetch s = some (0x4000 + x * 0x100 + kk) →
      ∃ o, executeCycle s draw = some o ∧
        o.state.programCounter = s.programCounter + (if s.registers x ≠ kk then 4 else 2) ∧
        SkipFrame s o.state) ∧
    (fetch s = some (0x5000 + x * 0x100 + y * 0x10) →
      ∃ o, executeCycle s draw = some o ∧
        o.state.programCounter =
          s.programCounter + (if s.registers x = s.registers y then 4 else 2) ∧
        SkipFrame s o.state) ∧
    (fetch s = some (0x9000 + x * 0x100 + y * 0x10) →
      ∃ o, executeCycle s draw = some o ∧
        o.state.programCounter =
          s.programCounter + (if s.registers x ≠ s.registers y then 4 else 2) ∧
        SkipFrame s o.state) := by
  refine ⟨?_, ?_, ?_, ?_⟩
  · intro hf
    have hfam : (0x3000 + x * 0x100 + kk) &&& 0xF000 = 0x3000 := by
      rw [decode_family]; omega
    have hX : ((0x3000 + x * 0x100 + kk) &&& 0x0F00) >>> 8 = x := by
      rw [decode_regX]; omega
    have hB : (0x3000 + x * 0x100 + kk) &&& 0x00FF = kk := by
      rw [decode_byteValue]; omega
    have he := execute_skipEq s draw _ hfam
    rw [hX, hB] at he
    exact executeCycle_advance s draw _ _ (by split <;> omega) hf he
  · intro hf
    have hfam : (0x4000 + x * 0x100 + kk) &&& 0xF000 = 0x4000 := by
      rw [decode_family]; omega
    have hX : ((0x4000 + x * 0x100 + kk) &&& 0x0F00) >>> 8 = x := by
      rw [decode_regX]; omega
    have hB : (0x4000 + x * 0x100 + kk) &&& 0x00FF = kk := by
      rw [decode_byteValue]; omega
    have he := execute_skipNe s draw _ hfam
    rw [hX, hB] at he
    exact executeCycle_advance s draw _ _ (by split <;> omega) hf he
  · intro hf
    have hfam : (0x5000 + x * 0x100 + y * 0x10) &&& 0xF000 = 0x5000 := by
      rw [decode_family]; omega
    have hX : ((0x5000 + x * 0x100 + y * 0x10) &&& 0x0F00) >>> 8 = x := by
      rw [decode_regX]; omega
    have hY : ((0x5000 + x * 0x100 + y * 0x10) &&& 0x00F0) >>> 4 = y := by
      rw [decode_regY]; omega
    have he := execute_skipRegEq s draw _ hfam
    rw [hX, hY] at he
    exact executeCycle_advance s draw _ _ (by split <;> omega) hf he
  · intro hf
    have hfam : (0x9000 + x * 0x100 + y * 0x10) &&& 0xF000 = 0x9000 := by
      rw [decode_family]; omega
    have hX : ((0x9000 + x * 0x100 + y * 0x10) &&& 0x0F00) >>> 8 = x := by
      rw [decode_regX]; omega
    have hY : ((0x9000 + x * 0x100 + y * 0x10) &&& 0x00F0) >>> 4 = y := by
      rw [decode_regY]; omega
    have he := execute_skipRegNe s draw _ hfam
    rw [hX, hY] at he
    exact executeCycle_advance s draw _ _ (by split <;> omega) hf he

/-- Witness for C13: with `V0 = 7`, `0x3007` skips (to `0x204`) and `0x4007` does
not (to `0x202`); with `V0 = 7`, `V1 = 9`, `0x5010` does not skip and `0x9010`
does. -/
theorem skip_instructions_witness :
    (∃ o, executeCycle (wordMachine 0x30 0x07 7 9 0) 0 = some o ∧
      o.state.programCounter = 0x204) ∧
    (∃ o, executeCycle (wordMachine 0x40 0x07 7 9 0) 0 = some o ∧
      o.state.programCounter = 0x202) ∧
    (∃ o, executeCycle (wordMachine 0x50 0x10 7 9 0) 0 = some o ∧
      o.state.programCounter = 0x202) ∧
    (∃ o, executeCycle (wordMachine 0x90 0x10 7 9 0) 0 = some o ∧
      o.state.programCounter = 0x204) := by
  obtain ⟨o1, h1, p1, _⟩ :=
    (skip_instructions (wordMachine 0x30 0x07 7 9 0) 0 0 1 7 (by decide) (by decide)
      (by decide)).1 (by decide)
  obtain ⟨o2, h2, p2, _⟩ :=
    (skip_instructions (wordMachine 0x40 0x07 7 9 0) 0 0 1 7 (by decide) (by decide)
      (by decide)).2.1 (by decide)
  obtain ⟨o3, h3, p3, _⟩ :=
    (skip_instructions (wordMachine 0x50 0x10 7 9 0) 0 0 1 7 (by decide) (by decide)
      (by decide)).2.2.1 (by decide)
  obtain ⟨o4, h4, p4, _⟩ :=
    (skip_instructions (wordMachine 0x90 0x10 7 9 0) 0 0 1 7 (by decide) (by decide)
      (by decide)).2.2.2 (by decide)
  exact ⟨⟨o1, h1, p1⟩, ⟨o2, h2, p2⟩, ⟨o3, h3, p3⟩, ⟨o4, h4, p4⟩⟩

/-! ## Setting and reading the timers (`0xFx15`, `0xFx18`, `0xFx07`) -/

/-- C20: with `v` the value of register `x`, one cycle on `0xFx15` leaves the
delay timer at `v - 1` if `v > 0` and at 0 if `v = 0`; one cycle on `0xFx18` does
the same to the sound timer; one cycle on `0xFx07` leaves in register `x` the
value the delay timer had before the cycle. -/
theorem timer_set_then_tick (s : Chip8) (draw x : Nat) (hx : x < 16) :
    (fetch s = some (0xF015 + x * 0x100) →
      ∃ o, executeCycle s draw = some o ∧
        o.state.delayTimer = (if s.registers x > 0 then s.registers x - 1 else 0)) ∧
    (fetch s = some (0xF018 + x * 0x100) →
      ∃ o, executeCycle s draw = some o ∧
        o.state.soundTimer = (if s.registers x > 0 then s.registers x - 1 else 0)) ∧
    (fetch s = some (0xF007 + x * 0x100) →
      ∃ o, executeCycle s draw = some o ∧ o.state.registers x = s.delayTimer) := by
  refine ⟨?_, ?_, ?_⟩
  · intro hf
    have hfam : (0xF015 + x * 0x100) &&& 0xF000 = 0xF000 := by
      rw [decode_family]; omega
    have hX : ((0xF015 + x * 0x100) &&& 0x0F00) >>> 8 = x := by
      rw [decode_regX]; omega
    have hB : (0xF015 + x * 0x100) &&& 0x00FF = 0x15 := by
      rw [decode_byteValue]; omega
    refine ⟨{ state := tickTimers (advance { s with delayTimer := s.registers x } 2),
              unknown := none }, ?_, ?_⟩
    · rw [executeCycle_of_fetch draw hf, execute_misc _ _ _ hfam, hX, hB]
      simp [executeMisc, finish]
    · simp only [tickTimers_delayTimer, advance]
      split <;> omega
  · intro hf
    have hfam : (0xF018 + x * 0x100) &&& 0xF000 = 0xF000 := by
      rw [decode_family]; omega
    have hX : ((0xF018 + x * 0x100) &&& 0x0F00) >>> 8 = x := by
      rw [decode_regX]; omega
    have hB : (0xF018 + x * 0x100) &&& 0x00FF = 0x18 := by
      rw [decode_byteValue]; omega
    refine ⟨{ state := tickTimers (advance { s with soundTimer := s.registers x } 2),
              unknown := none }, ?_, ?_⟩
    · rw [executeCycle_of_fetch draw hf, execute_misc _ _ _ hfam, hX, hB]
      simp [executeMisc, finish]
    · simp only [tickTimers_soundTimer, advance]
      split <;> omega
  · intro hf
    have hfam : (0xF007 + x * 0x100) &&& 0xF000 = 0xF000 := by
      rw [decode_family]; omega
    have hX : ((0xF007 + x * 0x100) &&& 0x0F00) >>> 8 = x := by
      rw [decode_regX]; omega
    have hB : (0xF007 + x * 0x100) &&& 0x00FF = 0x07 := by
      rw [decode_byteValue]; omega
    refine ⟨{ state := tickTimers (advance
        { s with registers := Function.update s.registers x s.delayTimer } 2),
              unknown := none }, ?_, ?_⟩
    · rw [executeCycle_of_fetch draw hf, execute_misc _ _ _ hfam, hX, hB]
      simp [executeMisc, finish]
    · simp [advance]

/-- Witness for C20: `V0 = 9` set into the delay timer reads 8 after the cycle,
`V0 = 0` reads 0; the same for the sound timer; and `0xF007` with the delay timer
at 5 puts 5 (not 4) into `V0`. -/
theorem timer_set_then_tick_witness :
    (∃ o, executeCycle (wordMachine 0xF0 0x15 9 0 3) 0 = some o ∧ o.state.delayTimer = 8) ∧
    (∃ o, executeCycle (wordMachine 0xF0 0x15 0 0 3) 0 = some o ∧ o.state.delayTimer = 0) ∧
    (∃ o, executeCycle (wordMachine 0xF0 0x18 9 0 3) 0 = some o ∧ o.state.soundTimer = 8) ∧
    (∃ o, executeCycle (wordMachine 0xF0 0x07 9 0 5) 0 = some o ∧ o.state.registers 0 = 5) :=
  ⟨(timer_set_then_tick (wordMachine 0xF0 0x15 9 0 3) 0 0 (by decide)).1 (by decide),
   (timer_set_then_tick (wordMachine 0xF0 0x15 0 0 3) 0 0 (by decide)).1 (by decide),
   (timer_set_then_tick (wordMachine 0xF0 0x18 9 0 3) 0 0 (by decide)).2.1 (by decide),
   (timer_set_then_tick (wordMachine 0xF0 0x07 9 0 5) 0 0 (by decide)).2.2 (by decide)⟩

/-! ## The flag register as destination or operand -/

/-- The two writes of the flag-producing instructions, in source order: the flag
goes to `registers[0xF]` first; the result goes to `registers[regX]` second and,
except for the add, is computed from the registers as they are after the flag
write. -/
theorem arithRegisters_flagged (r : Nat → Nat) (nibble regX regY : Nat)
    (hN : nibble = 0x4 ∨ nibble = 0x5 ∨ nibble = 0x6 ∨ nibble = 0x7 ∨ nibble = 0xE) :
    arithRegisters r nibble regX regY =
      Function.update (Function.update r 0xF (flagOutput nibble (r regX) (r regY))) regX
        (if nibble = 0x4 then primaryResult nibble (r regX) (r regY)
         else primaryResult nibble
           (Function.update r 0xF (flagOutput nibble (r regX) (r regY)) regX)
           (Function.update r 0xF (flagOutput nibble (r regX) (r regY)) regY)) := by
  rcases hN with h | h | h | h | h <;> subst h
  · have hs : (r regX + r regY) % 65536 &&& 0xFF = (r regX + r regY) % 256 := by
      rw [decode_byteValue]; omega
    simp [arithRegisters, flagOutput, primaryResult, hs]
  · simp [arithRegisters, flagOutput, primaryResult]
  · simp [arithRegisters, flagOutput, primaryResult]
  · simp [arithRegisters, flagOutput, primaryResult]
  · simp [arithRegisters, flagOutput, primaryResult]

/-- One whole cycle on a word of the `0x8000` family. -/
theorem executeCycle_arith (s : Chip8) (draw x y N : Nat) (hx : x < 16) (hy : y < 16)
    (hN : N < 16) (hf : fetch s = some (0x8000 + x * 0x100 + y * 0x10 + N)) :
    executeCycle s draw = some
      { state := tickTimers (executeArith s N x y), unknown := none } := by
  have hfam : (0x8000 + x * 0x100 + y * 0x10 + N) &&& 0xF000 = 0x8000 := by
    rw [decode_family]; omega
  have hX : ((0x8000 + x * 0x100 + y * 0x10 + N) &&& 0x0F00) >>> 8 = x := by
    rw [decode_regX]; omega
  have hY : ((0x8000 + x * 0x100 + y * 0x10 + N) &&& 0x00F0) >>> 4 = y := by
    rw [decode_regY]; omega
  have hNib : (0x8000 + x * 0x100 + y * 0x10 + N) &&& 0x000F = N := by
    rw [decode_nibble]; omega
  rw [executeCycle_of_fetch draw hf, execute_arith _ _ _ hfam, hX, hY, hNib]
  rfl

/-- C12 as stated fails for each of the five instructions: with destination
`0xF` the flag is not what `VF` holds afterwards.  `0x8F04` with `VF = 0x10`,
`V0 = 0x20` leaves `0x30` (carry 0); `0x8F05` with `VF = 9`, `V0 = 5` leaves 252
(not-borrow 1); `0x8F06` with `VF = 3` leaves 0 (bit shifted out 1); `0x8F07` with
`VF = 5`, `V0 = 9` leaves 8 (not-borrow 1); `0x8F0E` with `VF = 0x81` leaves 2
(bit shifted out 1). -/
theorem flag_destination_counterexample :
    (executeCycle (flagMachine 0x8F 0x04 0x20 0x10) 0).map (fun o => o.state.registers 0xF)
      = some 0x30 ∧ flagOutput 0x4 0x10 0x20 = 0 ∧
    (executeCycle (flagMachine 0x8F 0x05 5 9) 0).map (fun o => o.state.registers 0xF)
      = some 252 ∧ flagOutput 0x5 9 5 = 1 ∧
    (executeCycle (flagMachine 0x8F 0x06 0 3) 0).map (fun o => o.state.registers 0xF)
      = some 0 ∧ flagOutput 0x6 3 0 = 1 ∧
    (executeCycle (flagMachine 0x8F 0x07 9 5) 0).map (fun o => o.state.registers 0xF)
      = some 8 ∧ flagOutput 0x7 5 9 = 1 ∧
    (executeCycle (flagMachine 0x8F 0x0E 0 0x81) 0).map (fun o => o.state.registers 0xF)
      = some 2 ∧ flagOutput 0xE 0x81 0 = 1 := by
  decide

/-- C12, amended: with destination `0xF` the primary write comes second and
wins.  After `0x8Fy4`, `VF` holds `(VF + Vy) mod 256` of the values before the
step, not the carry; after `0x8Fy5`, `0x8Fy6`, `0x8Fy7`, `0x8FyE` it holds the
subtraction or shift result of the values before the step whenever the flag
written first equals the value `VF` already held. -/
theorem flag_destination_primary_wins (s : Chip8) (draw y N : Nat) (hy : y < 16)
    (hN : N = 0x4 ∨ N = 0x5 ∨ N = 0x6 ∨ N = 0x7 ∨ N = 0xE)
    (hf : fetch s = some (0x8000 + 0xF * 0x100 + y * 0x10 + N))
    (hkeep : N = 0x4 ∨ flagOutput N (s.registers 0xF) (s.registers y) = s.registers 0xF) :
    ∃ o, executeCycle s draw = some o ∧
      o.state.registers 0xF = primaryResult N (s.registers 0xF) (s.registers y) := by
  have hN16 : N < 16 := by omega
  refine ⟨_, executeCycle_arith s draw 0xF y N (by decide) hy hN16 hf, ?_⟩
  simp only [tickTimers_registers, executeArith, advance]
  rw [arithRegisters_flagged _ _ _ _ hN, Function.update_same]
  by_cases h4 : N = 0x4
  · rw [if_pos h4]
  · rw [if_neg h4]
    have hk : flagOutput N (s.registers 0xF) (s.registers y) = s.registers 0xF := by
      rcases hkeep with h | h
      · exact absurd h h4
      · exact h
    rw [hk, Function.update_eq_self]

/-- Witness for C12 (amended): `0x8F04` with `VF = 0x10`, `V0 = 0x20` leaves
`VF = 0x30`; `0x8F05` with `VF = 0`, `V0 = 3` leaves `VF = 253`. -/
theorem flag_destination_primary_wins_witness :
    (∃ o, executeCycle (flagMachine 0x8F 0x04 0x20 0x10) 0 = some o ∧
      o.state.registers 0xF = 0x30) ∧
    (∃ o, executeCycle (flagMachine 0x8F 0x05 3 0) 0 = some o ∧
      o.state.registers 0xF = 253) :=
  ⟨flag_destination_primary_wins (flagMachine 0x8F 0x04 0x20 0x10) 0 0 4 (by decide)
      (by decide) (by decide) (by decide),
   flag_destination_primary_wins (flagMachine 0x8F 0x05 3 0) 0 0 5 (by decide)
      (by decide) (by decide) (by decide)⟩

/-- C17 (the code departs from the claim): with `y = 0xF` the subtraction reads
`VF` after the flag has been written into it.  `0x80F5` with `V0 = 5`, `VF = 3`
leaves `V0 = 4` (5 minus the flag 1) where `(5 - 3) mod 256 = 2`; `0x80F7` with
`V0 = 5`, `VF = 9` leaves `V0 = 252` (the flag 1 minus 5) where
`(9 - 5) mod 256 = 4`.  The add `0x80F4` with `V0 = 5`, `VF = 3` does use the old
`VF`: it leaves `V0 = 8`. -/
theorem sub_flag_operand_overwritten :
    (executeCycle (flagMachine 0x80 0xF5 5 3) 0).map (fun o => o.state.registers 0)
      = some 4 ∧ sub8 5 3 = 2 ∧
    (executeCycle (flagMachine 0x80 0xF7 5 9) 0).map (fun o => o.state.registers 0)
      = some 252 ∧ sub8 9 5 = 4 ∧
    (executeCycle (flagMachine 0x80 0xF4 5 3) 0).map (fun o => o.state.registers 0)
      = some 8 := by
  decide

/-! ## Bulk store and load (`0xFx55`, `0xFx65`) -/

/-- The store loop completes when its last address is inside memory, and then
writes exactly the cells described by `storedMemory`. -/
theorem storeRegisters_eq (count i : Nat) (s : Chip8)
    (h : s.indexRegister + i + count ≤ 4096) :
    storeRegisters count i s = some { s with memory := storedMemory s count i } := by
  induction count generalizing i s with
  | zero =>
    have hm : storedMemory s 0 i = s.memory := by
      funext a
      have : ¬ (s.indexRegister + i ≤ a ∧ a < s.indexRegister + i + 0) := by omega
      simp only [storedMemory, this, if_false]
    rw [storeRegisters, hm]
  | succ k ih =>
    have hb : s.indexRegister + i < 4096 := by omega
    rw [storeRegisters, if_pos hb, ih (i + 1) _ (by show s.indexRegister + (i + 1) + k ≤ 4096; omega)]
    have hm : storedMemory
        { s with memory := Function.update s.memory (s.indexRegister + i) (s.registers i) }
        k (i + 1) = storedMemory s (k + 1) i := by
      funext a
      simp only [storedMemory]
      by_cases h1 : s.indexRegister + (i + 1) ≤ a ∧ a < s.indexRegister + (i + 1) + k
      · have h2 : s.indexRegister + i ≤ a ∧ a < s.indexRegister + i + (k + 1) := by omega
        rw [if_pos h1, if_pos h2]
      · rw [if_neg h1]
        by_cases h3 : a = s.indexRegister + i
        · have h2 : s.indexRegister + i ≤ a ∧ a < s.indexRegister + i + (k + 1) := by omega
          have h4 : a - s.indexRegister = i := by omega
          rw [if_pos h2, h3, Function.update_same, Nat.add_sub_cancel_left]
        · have h2 : ¬ (s.indexRegister + i ≤ a ∧ a < s.indexRegister + i + (k + 1)) := by
            omega
          rw [if_neg h2, Function.update_noteq h3]
    rw [hm]

/-- The store loop faults when its last address is outside memory. -/
theorem storeRegisters_none (count i : Nat) (s : Chip8) (hc : count ≠ 0)
    (h : ¬ s.indexRegister + i + count ≤ 4096) : storeRegisters count i s = none := by
  induction count generalizing i s with
  | zero => exact absurd rfl hc
  | succ k ih =>
    rw [storeRegisters]
    by_cases hb : s.indexRegister + i < 4096
    · rw [if_pos hb]
      have hk : k ≠ 0 := by omega
      exact ih (i + 1) _ hk (by show ¬ s.indexRegister + (i + 1) + k ≤ 4096; omega)
    · rw [if_neg hb]

/-- The load loop completes when its last address is inside memory, and then
writes exactly the registers described by `loadedRegisters`. -/
theorem loadRegisters_eq (count i : Nat) (s : Chip8)
    (h : s.indexRegister + i + count ≤ 4096) :
    loadRegisters count i s = some { s with registers := loadedRegisters s count i } := by
  induction count generalizing i s with
  | zero =>
    have hm : loadedRegisters s 0 i = s.registers := by
      funext j
      have : ¬ (i ≤ j ∧ j < i + 0) := by omega
      simp only [loadedRegisters, this, if_false]
    rw [loadRegisters, hm]
  | succ k ih =>
    have hb : s.indexRegister + i < 4096 := by omega
    rw [loadRegisters, if_pos hb, ih (i + 1) _ (by show s.indexRegister + (i + 1) + k ≤ 4096; omega)]
    have hm : loadedRegisters
        { s with registers :=
            Function.update s.registers i (s.memory (s.indexRegister + i)) }
        k (i + 1) = loadedRegisters s (k + 1) i := by
      funext j
      simp only [loadedRegisters]
      by_cases h1 : i + 1 ≤ j ∧ j < i + 1 + k
      · have h2 : i ≤ j ∧ j < i + (k + 1) := by omega
        rw [if_pos h1, if_pos h2]
      · rw [if_neg h1]
        by_cases h3 : j = i
        · have h2 : i ≤ j ∧ j < i + (k + 1) := by omega
          rw [if_pos h2, h3, Function.update_same]
        · have h2 : ¬ (i ≤ j ∧ j < i + (k + 1)) := by omega
          rw [if_neg h2, Function.update_noteq h3]
    rw [hm]

/-- The load loop faults when its last address is outside memory. -/
theorem loadRegisters_none (count i : Nat) (s : Chip8) (hc : count ≠ 0)
    (h : ¬ s.indexRegister + i + count ≤ 4096) : loadRegisters count i s = none := by
  induction count generalizing i s with
  | zero => exact absurd rfl hc
  | succ k ih =>
    rw [loadRegisters]
    by_cases hb : s.indexRegister + i < 4096
    · rw [if_pos hb]
      have hk : k ≠ 0 := by omega
      exact ih (i + 1) _ hk (by show ¬ s.indexRegister + (i + 1) + k ≤ 4096; omega)
    · rw [if_neg hb]

/-- One whole cycle on `0xFx55` with the stored range inside memory. -/
theorem executeCycle_store (s : Chip8) (draw x : Nat) (hx : x < 16)
    (hI : s.indexRegister + x ≤ 4095) (hf : fetch s = some (0xF055 + x * 0x100)) :
    executeCycle s draw = some
      { state := tickTimers (advance { s with memory := storedMemory s (x + 1) 0 } 2),
        unknown := none } := by
  have hfam : (0xF055 + x * 0x100) &&& 0xF000 = 0xF000 := by
    rw [decode_family]; omega
  have hX : ((0xF055 + x * 0x100) &&& 0x0F00) >>> 8 = x := by
    rw [decode_regX]; omega
  have hB : (0xF055 + x * 0x100) &&& 0x00FF = 0x55 := by
    rw [decode_byteValue]; omega
  rw [executeCycle_of_fetch draw hf, execute_misc _ _ _ hfam, hX, hB]
  have hs := storeRegisters_eq (x + 1) 0 s (by omega)
  simp [executeMisc, hs, finish]

/-- One whole cycle on `0xFx65` with the loaded range inside memory. -/
theorem executeCycle_load (s : Chip8) (draw x : Nat) (hx : x < 16)
    (hI : s.indexRegister + x ≤ 4095) (hf : fetch s = some (0xF065 + x * 0x100)) :
    executeCycle s draw = some
      { state := tickTimers (advance { s with registers := loadedRegisters s (x + 1) 0 } 2),
        unknown := none } := by
  have hfam : (0xF065 + x * 0x100) &&& 0xF000 = 0xF000 := by
    rw [decode_family]; omega
  have hX : ((0xF065 + x * 0x100) &&& 0x0F00) >>> 8 = x := by
    rw [decode_regX]; omega
  have hB : (0xF065 + x * 0x100) &&& 0x00FF = 0x65 := by
    rw [decode_byteValue]; omega
  rw [executeCycle_of_fetch draw hf, execute_misc _ _ _ hfam, hX, hB]
  have hs := loadRegisters_eq (x + 1) 0 s (by omega)
  simp [executeMisc, hs, finish]

/-- C14: with `I + x ≤ 4095`, one cycle on `0xFx55` sets `memory[I + i]` to
register `i` for every `i` from 0 to `x` and leaves every other memory byte, all
registers and the index register unchanged; and a later cycle on `0xFx65`, from
any state with the same index register and those memory bytes, puts the stored
values back into registers 0 to `x` whatever they held, leaving the registers
above `x` and the index register unchanged. -/
theorem store_then_load (s : Chip8) (d1 d2 x : Nat) (hx : x < 16)
    (hI : s.indexRegister + x ≤ 4095) (hf : fetch s = some (0xF055 + x * 0x100)) :
    ∃ o1, executeCycle s d1 = some o1 ∧
      (∀ i, i ≤ x → o1.state.memory (s.indexRegister + i) = s.registers i) ∧
      (∀ a, a < s.indexRegister ∨ s.indexRegister + x < a →
        o1.state.memory a = s.memory a) ∧
      o1.state.registers = s.registers ∧
      o1.state.indexRegister = s.indexRegister ∧
      ∀ t : Chip8, fetch t = some (0xF065 + x * 0x100) →
        t.indexRegister = s.indexRegister →
        (∀ i, i ≤ x →
          t.memory (s.indexRegister + i) = o1.state.memory (s.indexRegister + i)) →
        ∃ o2, executeCycle t d2 = some o2 ∧
          (∀ i, i ≤ x → o2.state.registers i = s.registers i) ∧
          (∀ i, x < i → o2.state.registers i = t.registers i) ∧
          o2.state.indexRegister = t.indexRegister := by
  have hstored : ∀ i, i ≤ x →
      storedMemory s (x + 1) 0 (s.indexRegister + i) = s.registers i := by
    intro i hi
    have hc : s.indexRegister + 0 ≤ s.indexRegister + i ∧
        s.indexRegister + i < s.indexRegister + 0 + (x + 1) := by omega
    simp only [storedMemory, hc, and_self, if_true, Nat.add_sub_cancel_left]
  refine ⟨_, executeCycle_store s d1 x hx hI hf, ?_, ?_, ?_, ?_, ?_⟩
  · intro i hi
    simpa [advance] using hstored i hi
  · intro a ha
    have hc : ¬ (s.indexRegister + 0 ≤ a ∧ a < s.indexRegister + 0 + (x + 1)) := by omega
    simp only [tickTimers_memory, advance, storedMemory, hc, if_false]
  · simp [advance]
  · simp [advance]
  · intro t hft hidx hmem
    refine ⟨_, executeCycle_load t d2 x hx (by rw [hidx]; exact hI) hft, ?_, ?_, ?_⟩
    · intro i hi
      have hc : 0 ≤ i ∧ i < 0 + (x + 1) := by omega
      have h1 := hmem i hi
      simp only [tickTimers_memory, advance] at h1
      simp only [tickTimers_registers, advance, loadedRegisters, hc, and_self, if_true]
      rw [hidx, h1, hstored i hi]
    · intro i hi
      have hc : ¬ (0 ≤ i ∧ i < 0 + (x + 1)) := by omega
      simp only [tickTimers_registers, advance, loadedRegisters, hc, if_false]
    · simp [advance]

/-- Witness for C14: `V0..V2 = 11, 22, 33` stored at `0x300` by `0xF255` and read
back by the `0xF265` that follows; `V3 = 44` is not stored. -/
theorem store_then_load_witness :
    ∃ o1 o2, executeCycle storeLoadMachine 0 = some o1 ∧
      o1.state.memory 0x300 = 11 ∧ o1.state.memory 0x302 = 33 ∧
      o1.state.memory 0x303 = 0 ∧
      executeCycle o1.state 0 = some o2 ∧
      o2.state.registers 0 = 11 ∧ o2.state.registers 2 = 33 ∧ o2.state.registers 3 = 44 := by
  obtain ⟨o1, h1, hst, hrest, hreg, hidx, hall⟩ :=
    store_then_load storeLoadMachine 0 0 2 (by decide) (by decide) (by decide)
  have hft : (executeCycle storeLoadMachine 0).bind (fun o => fetch o.state)
      = some (0xF065 + 2 * 0x100) := by decide
  rw [h1] at hft
  obtain ⟨o2, h2, hback, hkeep, _⟩ := hall o1.state hft hidx (fun _ _ => rfl)
  refine ⟨o1, o2, h1, hst 0 (by decide), hst 2 (by decide), ?_, h2, hback 0 (by decide),
    hback 2 (by decide), ?_⟩
  · exact (hrest 0x303 (Or.inr (by decide))).trans (by decide)
  · rw [hkeep 3 (by decide), hreg]
    rfl

/-! ## Array indices derived from run-time data -/

theorem drawBit_frame (regX regY row spriteRow : Nat) (s : Chip8) (col : Nat) :
    DrawFrame s (drawBit regX regY row spriteRow s col) := by
  unfold drawBit
  split
  · exact togglePixel_frame _ _
  · exact drawFrame_refl s

theorem drawRow_frame (regX regY row spriteRow : Nat) (s : Chip8) :
    DrawFrame s (drawRow regX regY row spriteRow s) := by
  unfold drawRow
  generalize List.range 8 = cols
  induction cols generalizing s with
  | nil => exact drawFrame_refl s
  | cons c cs ih => exact drawFrame_trans (drawBit_frame regX regY row spriteRow s c) (ih _)

/-- The row loop completes when the last sprite row is inside memory, whatever
the selectors are. -/
theorem drawRows_some (regX regY count row : Nat) (s : Chip8)
    (h : s.indexRegister + row + count ≤ 4096) :
    ∃ t, drawRows regX regY count row s = some t ∧ DrawFrame s t := by
  induction count generalizing row s with
  | zero => exact ⟨s, rfl, drawFrame_refl s⟩
  | succ k ih =>
    have hb : s.indexRegister + row < 4096 := by omega
    have hf := drawRow_frame regX regY row (s.memory (s.indexRegister + row)) s
    obtain ⟨t, ht, hft⟩ := ih (row + 1)
      (drawRow regX regY row (s.memory (s.indexRegister + row)) s) (by rw [hf.2.1]; omega)
    exact ⟨t, by rw [drawRows, if_pos hb, ht], drawFrame_trans hf hft⟩

/-- The row loop faults when the last sprite row is outside memory. -/
theorem drawRows_none (regX regY count row : Nat) (s : Chip8) (hc : count ≠ 0)
    (h : ¬ s.indexRegister + row + count ≤ 4096) :
    drawRows regX regY count row s = none := by
  induction count generalizing row s with
  | zero => exact absurd rfl hc
  | succ k ih =>
    rw [drawRows]
    by_cases hb : s.indexRegister + row < 4096
    · rw [if_pos hb]
      have hk : k ≠ 0 := by omega
      have hf := drawRow_frame regX regY row (s.memory (s.indexRegister + row)) s
      exact ih (row + 1) _ hk (by rw [hf.2.1]; omega)
    · rw [if_neg hb]

theorem drawRows_frame (regX regY count row : Nat) (s t : Chip8)
    (h : drawRows regX regY count row s = some t) : DrawFrame s t := by
  by_cases hb : s.indexRegister + row + count ≤ 4096
  · obtain ⟨t2, ht2, hf⟩ := drawRows_some regX regY count row s hb
    rw [ht2] at h
    cases h
    exact hf
  · by_cases hc : count = 0
    · subst hc
      simp only [drawRows, Option.some.injEq] at h
      subst h
      exact drawFrame_refl s
    · rw [drawRows_none regX regY count row s hc hb] at h
      cases h

theorem executeSys_isSome (s : Chip8) (w : Nat) (hsp : s.stackPointer < 256) :
    (executeSys s w).isSome ↔ (w = 0x00EE → 1 ≤ s.stackPointer ∧ s.stackPointer ≤ 16) := by
  unfold executeSys finish
  by_cases h1 : w = 0x00E0
  · subst h1
    simp
  · by_cases h2 : w = 0x00EE
    · subst h2
      have hiff : (s.stackPointer + 255) % 256 < 16 ↔
          1 ≤ s.stackPointer ∧ s.stackPointer ≤ 16 := by omega
      by_cases h3 : (s.stackPointer + 255) % 256 < 16
      · simp [h3, hiff.mp h3]
      · have h4 : ¬ (1 ≤ s.stackPointer ∧ s.stackPointer ≤ 16) := fun h => h3 (hiff.mpr h)
        simp [h3, h4]
    · simp [h1, h2]

theorem executeCall_isSome (s : Chip8) (a : Nat) :
    (executeCall s a).isSome ↔ s.stackPointer < 16 := by
  unfold executeCall finish
  by_cases h : s.stackPointer < 16
  · simp [h]
  · simp [h]

theorem executeDraw_isSome (s : Chip8) (n x y : Nat) :
    (executeDraw s n x y).isSome ↔ (n = 0 ∨ s.indexRegister + n ≤ 4096) := by
  unfold executeDraw finish
  by_cases hb : s.indexRegister + n ≤ 4096
  · obtain ⟨t, ht, _⟩ := drawRows_some x y n 0
      { s with registers := Function.update s.registers 0xF 0 } (by simpa using hb)
    simp [ht, hb]
  · by_cases hc : n = 0
    · subst hc
      simp [drawRows]
    · have := drawRows_none x y n 0
        { s with registers := Function.update s.registers 0xF 0 } hc (by simpa using hb)
      simp [this, hb, hc]

theorem executeKey_isSome (s : Chip8) (b x : Nat) :
    (executeKey s b x).isSome ↔ (b = 0x9E ∨ b = 0xA1 → s.registers x < 16) := by
  unfold executeKey finish
  by_cases h1 : b = 0x9E
  · subst h1
    by_cases h : s.registers x < 16 <;> simp [h]
  · by_cases h2 : b = 0xA1
    · subst h2
      by_cases h : s.registers x < 16 <;> simp [h]
    · simp [h1, h2]

theorem executeMisc_isSome (s : Chip8) (b x : Nat) :
    (executeMisc s b x).isSome ↔
      ((b = 0x33 → s.indexRegister + 2 < 4096) ∧
       (b = 0x55 ∨ b = 0x65 → s.indexRegister + x < 4096)) := by
  unfold executeMisc
  by_cases h33 : b = 0x33
  · subst h33
    by_cases h : s.indexRegister + 2 < 4096
    · have hg : s.indexRegister < 4096 ∧ s.indexRegister + 1 < 4096 ∧
          s.indexRegister + 2 < 4096 := by omega
      simp [hg, h]
    · have hg : ¬ (s.indexRegister < 4096 ∧ s.indexRegister + 1 < 4096 ∧
          s.indexRegister + 2 < 4096) := by omega
      simp [hg, h]
  · by_cases h55 : b = 0x55
    · subst h55
      by_cases h : s.indexRegister + x < 4096
      · have := storeRegisters_eq (x + 1) 0 s (by omega)
        simp [this, h]
      · have := storeRegisters_none (x + 1) 0 s (by omega) (by omega)
        simp [this, h]
    · by_cases h65 : b = 0x65
      · subst h65
        by_cases h : s.indexRegister + x < 4096
        · have := loadRegisters_eq (x + 1) 0 s (by omega)
          simp [this, h]
        · have := loadRegisters_none (x + 1) 0 s (by omega) (by omega)
          simp [this, h]
      · simp only [h33, h55, h65, if_false, false_or, false_imp_iff, and_self, iff_true]
        split_ifs <;> rfl

theorem execute_key (s : Chip8) (draw w : Nat) (h : w &&& 0xF000 = 0xE000) :
    execute s draw w = executeKey s (w &&& 0x00FF) ((w &&& 0x0F00) >>> 8) := by
  simp [execute, h]

theorem execute_isSome (s : Chip8) (draw w : Nat) (hsp : s.stackPointer < 256) :
    (execute s draw w).isSome ↔ IndexInRange s w := by
  rcases execute_family s draw w with
    ⟨hF, he⟩ | ⟨hF, he⟩ | ⟨hF, he⟩ | ⟨hF, he⟩ | ⟨hF, he⟩ | ⟨hF, he⟩ | ⟨hF, he⟩ | ⟨hF, he⟩ |
    ⟨hF, he⟩ | ⟨hF, he⟩ | ⟨hF, he⟩ | ⟨hF, he⟩ | ⟨hF, he⟩ | ⟨hF, he⟩ | ⟨hF, he⟩ | ⟨hF, he⟩
  all_goals rw [he]
  case inl =>
    rw [executeSys_isSome s w hsp]
    simp [IndexInRange, hF]
  case inr.inr.inl =>
    rw [executeCall_isSome]
    simp [IndexInRange, hF]
  case inr.inr.inr.inr.inr.inr.inr.inr.inr.inr.inr.inr.inr.inl =>
    rw [executeDraw_isSome]
    simp [IndexInRange, hF]
  case inr.inr.inr.inr.inr.inr.inr.inr.inr.inr.inr.inr.inr.inr.inl =>
    rw [executeKey_isSome]
    simp [IndexInRange, hF]
  case inr.inr.inr.inr.inr.inr.inr.inr.inr.inr.inr.inr.inr.inr.inr =>
    have hb : ((executeMisc s (w &&& 0x00FF) ((w &&& 0x0F00) >>> 8)).bind finish).isSome =
        (executeMisc s (w &&& 0x00FF) ((w &&& 0x0F00) >>> 8)).isSome := by
      cases executeMisc s (w &&& 0x00FF) ((w &&& 0x0F00) >>> 8) <;> rfl
    rw [hb, executeMisc_isSome]
    simp [IndexInRange, hF]
  all_goals simp [IndexInRange, hF, finish]

/-- C15 as stated fails: the cycle uses these indices without a mask or a check.
Each machine below holds bytes in its registers and a fetchable word, and the
cycle runs into an access outside the array (the model answers `none`, so
`isSome` is false): key index
`V0 = 16` for `0xE09E` and `0xE0A1`; sprite row at `I = 4096` for `0xD001`;
third digit cell `I + 2 = 4096` for `0xF033`; cell `I = 4096` for `0xF055` and
`0xF065`; stack slot 16 for `0x2200`; stack slot 255 for `0x00EE` with an empty
stack. -/
theorem unchecked_indices_counterexample :
    (fetch (indexMachine 0xE0 0x9E 16 0 0) = some 0xE09E ∧
      (executeCycle (indexMachine 0xE0 0x9E 16 0 0) 0).isSome = false) ∧
    (fetch (indexMachine 0xE0 0xA1 16 0 0) = some 0xE0A1 ∧
      (executeCycle (indexMachine 0xE0 0xA1 16 0 0) 0).isSome = false) ∧
    (fetch (indexMachine 0xD0 0x01 0 4096 0) = some 0xD001 ∧
      (executeCycle (indexMachine 0xD0 0x01 0 4096 0) 0).isSome = false) ∧
    (fetch (indexMachine 0xF0 0x33 0 4094 0) = some 0xF033 ∧
      (executeCycle (indexMachine 0xF0 0x33 0 4094 0) 0).isSome = false) ∧
    (fetch (indexMachine 0xF0 0x55 0 4096 0) = some 0xF055 ∧
      (executeCycle (indexMachine 0xF0 0x55 0 4096 0) 0).isSome = false) ∧
    (fetch (indexMachine 0xF0 0x65 0 4096 0) = some 0xF065 ∧
      (executeCycle (indexMachine 0xF0 0x65 0 4096 0) 0).isSome = false) ∧
    (fetch (indexMachine 0x22 0x00 0 0 16) = some 0x2200 ∧
      (executeCycle (indexMachine 0x22 0x00 0 0 16) 0).isSome = false) ∧
    (fetch (indexMachine 0x00 0xEE 0 0 0) = some 0x00EE ∧
      (executeCycle (indexMachine 0x00 0xEE 0 0 0) 0).isSome = false) := by
  decide

/-- C15, amended: the cycle neither masks nor checks the indices it derives from
registers, the index register or the stack pointer; for the word `w` at the
program counter every array access of the cycle is within range exactly when
`IndexInRange` holds: `registers[x] < 16` for `0xEx9E` / `0xExA1`,
`I + n ≤ 4096` (or `n = 0`) for `0xDxyn`, `I + 2 < 4096` for `0xFx33`,
`I + x < 4096` for `0xFx55` / `0xFx65`, stack pointer below 16 for `0x2nnn` and
from 1 to 16 for `0x00EE`. -/
theorem indices_in_range_iff (s : Chip8) (draw w : Nat) (hsp : s.stackPointer < 256)
    (hf : fetch s = some w) :
    (∃ o, executeCycle s draw = some o) ↔ IndexInRange s w := by
  rw [executeCycle_of_fetch draw hf, ← execute_isSome s draw w hsp]
  cases execute s draw w with
  | none => simp
  | some o => simp

/-- Witness for C15 (amended): the key test completes with `V0 = 15` and the call
with the stack pointer at 15. -/
theorem indices_in_range_iff_witness :
    (∃ o, executeCycle (indexMachine 0xE0 0x9E 15 0 0) 0 = some o) ∧
    (∃ o, executeCycle (indexMachine 0x22 0x00 0 0 15) 0 = some o) :=
  ⟨(indices_in_range_iff (indexMachine 0xE0 0x9E 15 0 0) 0 0xE09E (by decide)
      (by decide)).mpr (by unfold IndexInRange; decide),
   (indices_in_range_iff (indexMachine 0x22 0x00 0 0 15) 0 0x2200 (by decide)
      (by decide)).mpr (by unfold IndexInRange; decide)⟩

/-! ## What a cycle can do to memory and to the display -/

theorem storeRegisters_result (count i : Nat) (s t : Chip8)
    (h : storeRegisters count i s = some t) :
    t = { s with memory := storedMemory s count i } := by
  by_cases hb : s.indexRegister + i + count ≤ 4096
  · rw [storeRegisters_eq count i s hb] at h
    exact (Option.some.inj h).symm
  · by_cases hc : count = 0
    · subst hc
      have hm : storedMemory s 0 i = s.memory := by
        funext a
        have : ¬ (s.indexRegister + i ≤ a ∧ a < s.indexRegister + i + 0) := by omega
        simp only [storedMemory, this, if_false]
      simp only [storeRegisters, Option.some.injEq] at h
      rw [hm, ← h]
    · rw [storeRegisters_none count i s hc hb] at h
      cases h

theorem loadRegisters_result (count i : Nat) (s t : Chip8)
    (h : loadRegisters count i s = some t) :
    t = { s with registers := loadedRegisters s count i } := by
  by_cases hb : s.indexRegister + i + count ≤ 4096
  · rw [loadRegisters_eq count i s hb] at h
    exact (Option.some.inj h).symm
  · by_cases hc : count = 0
    · subst hc
      have hm : loadedRegisters s 0 i = s.registers := by
        funext j
        have : ¬ (i ≤ j ∧ j < i + 0) := by omega
        simp only [loadedRegisters, this, if_false]
      simp only [loadRegisters, Option.some.injEq] at h
      rw [hm, ← h]
    · rw [loadRegisters_none count i s hc hb] at h
      cases h

/-- The `0xF000` family never touches the display, and touches memory below
address 80 only through `0xFx33` / `0xFx55` with the index register below 80. -/
theorem executeMisc_frame (s t : Chip8) (b x : Nat) (h : executeMisc s b x = some t) :
    t.screen = s.screen ∧
    (¬ ((b = 0x33 ∨ b = 0x55) ∧ s.indexRegister < 80) →
      ∀ a, a < 80 → t.memory a = s.memory a) := by
  unfold executeMisc at h
  simp only [Option.map_eq_some'] at h
  obtain ⟨u, hu, rfl⟩ := h
  show u.screen = s.screen ∧ (_ → ∀ a, a < 80 → u.memory a = s.memory a)
  split_ifs at hu with h1 h2 h3 h4 h5 h6 h7 h8 h9
  · cases hu; exact ⟨rfl, fun _ _ _ => rfl⟩
  · cases hu; exact ⟨rfl, fun _ _ _ => rfl⟩
  · cases hu; exact ⟨rfl, fun _ _ _ => rfl⟩
  · cases hu; exact ⟨rfl, fun _ _ _ => rfl⟩
  · cases hu; exact ⟨rfl, fun _ _ _ => rfl⟩
  · cases hu
    refine ⟨rfl, ?_⟩
    intro hn a ha
    have hI : 80 ≤ s.indexRegister := by
      by_contra hlt
      exact hn ⟨Or.inl h6, by omega⟩
    show Function.update (Function.update (Function.update s.memory s.indexRegister _)
      (s.indexRegister + 1) _) (s.indexRegister + 2) _ a = s.memory a
    rw [Function.update_noteq (by omega), Function.update_noteq (by omega),
      Function.update_noteq (by omega)]
  · have ht := storeRegisters_result _ _ _ _ hu
    subst ht
    refine ⟨rfl, ?_⟩
    intro hn a ha
    have hI : 80 ≤ s.indexRegister := by
      by_contra hlt
      exact hn ⟨Or.inr h8, by omega⟩
    have hc : ¬ (s.indexRegister + 0 ≤ a ∧ a < s.indexRegister + 0 + (x + 1)) := by omega
    show storedMemory s (x + 1) 0 a = s.memory a
    simp only [storedMemory, hc, if_false]
  · have ht := loadRegisters_result _ _ _ _ hu
    subst ht
    exact ⟨rfl, fun _ _ _ => rfl⟩
  · cases hu; exact ⟨rfl, fun _ _ _ => rfl⟩

theorem togglePixel_binary (s : Chip8) (p : Nat) (hs : BinaryScreen s) :
    BinaryScreen (togglePixel s p) := by
  intro q
  rw [togglePixel_screen]
  by_cases hq : q = p
  · rw [if_pos hq]
    rcases hs p with h | h <;> rw [h]
    · exact Or.inr rfl
    · exact Or.inl rfl
  · rw [if_neg hq]
    exact hs q

theorem drawRow_binary (regX regY row spriteRow : Nat) (s : Chip8) (hs : BinaryScreen s) :
    BinaryScreen (drawRow regX regY row spriteRow s) := by
  unfold drawRow
  generalize List.range 8 = cols
  induction cols generalizing s with
  | nil => exact hs
  | cons c cs ih =>
    apply ih
    unfold drawBit
    split
    · exact togglePixel_binary _ _ hs
    · exact hs

theorem drawRows_binary (regX regY count row : Nat) (s t : Chip8)
    (h : drawRows regX regY count row s = some t) (hs : BinaryScreen s) : BinaryScreen t := by
  induction count generalizing row s with
  | zero =>
    simp only [drawRows, Option.some.injEq] at h
    subst h
    exact hs
  | succ k ih =>
    simp only [drawRows] at h
    split at h
    · exact ih _ _ h (drawRow_binary _ _ _ _ _ hs)
    · cases h

/-- One instruction keeps every display cell at 0 or 1, and changes memory below
address 80 only when it is `0xFx33` / `0xFx55` with the index register below 80. -/
theorem execute_frame (s : Chip8) (draw w : Nat) (o : Outcome)
    (h : execute s draw w = some o) :
    (BinaryScreen s → BinaryScreen o.state) ∧
    (¬ (w &&& 0xF000 = 0xF000 ∧ (w &&& 0x00FF = 0x33 ∨ w &&& 0x00FF = 0x55) ∧
        s.indexRegister < 80) →
      ∀ a, a < 80 → o.state.memory a = s.memory a) := by
  rcases execute_family s draw w with
    ⟨hF, he⟩ | ⟨hF, he⟩ | ⟨hF, he⟩ | ⟨hF, he⟩ | ⟨hF, he⟩ | ⟨hF, he⟩ | ⟨hF, he⟩ | ⟨hF, he⟩ |
    ⟨hF, he⟩ | ⟨hF, he⟩ | ⟨hF, he⟩ | ⟨hF, he⟩ | ⟨hF, he⟩ | ⟨hF, he⟩ | ⟨hF, he⟩ | ⟨hF, he⟩
  all_goals rw [he] at h
  case inl =>
    unfold executeSys finish at h
    dsimp only at h
    split_ifs at h
    · cases h
      exact ⟨fun _ _ => Or.inl rfl, fun _ _ _ => rfl⟩
    · cases h
      exact ⟨fun hs => hs, fun _ _ _ => rfl⟩
    · cases h
      exact ⟨fun hs => hs, fun _ _ _ => rfl⟩
  case inr.inr.inl =>
    unfold executeCall finish at h
    split_ifs at h
    cases h
    exact ⟨fun hs => hs, fun _ _ _ => rfl⟩
  case inr.inr.inr.inr.inr.inr.inr.inr.inr.inr.inr.inr.inr.inl =>
    unfold executeDraw finish at h
    simp only [Option.bind_eq_some, Option.some.injEq] at h
    obtain ⟨t, ht, rfl⟩ := h
    have hfr := drawRows_frame _ _ _ _ _ _ ht
    exact ⟨fun hs => drawRows_binary _ _ _ _ _ t ht hs, fun _ a _ => congrFun hfr.1 a⟩
  case inr.inr.inr.inr.inr.inr.inr.inr.inr.inr.inr.inr.inr.inr.inl =>
    unfold executeKey finish at h
    dsimp only at h
    split_ifs at h
    all_goals (cases h; exact ⟨fun hs => hs, fun _ _ _ => rfl⟩)
  case inr.inr.inr.inr.inr.inr.inr.inr.inr.inr.inr.inr.inr.inr.inr =>
    simp only [Option.bind_eq_some, finish, Option.some.injEq] at h
    obtain ⟨t, ht, rfl⟩ := h
    have hm := executeMisc_frame _ _ _ _ ht
    refine ⟨fun hs p => ?_, fun hn => hm.2 (fun hb => hn ⟨hF, hb.1, hb.2⟩)⟩
    show t.screen p = 0 ∨ t.screen p = 1
    rw [hm.1]
    exact hs p
  all_goals (cases h; exact ⟨fun hs => hs, fun _ _ _ => rfl⟩)

/-- One whole cycle keeps every display cell at 0 or 1, and changes memory below
address 80 only when it stores into the font. -/
theorem executeCycle_frame (s : Chip8) (draw : Nat) (o : Outcome)
    (h : executeCycle s draw = some o) :
    (BinaryScreen s → BinaryScreen o.state) ∧
    (¬ StoresIntoFont s → ∀ a, a < 80 → o.state.memory a = s.memory a) := by
  unfold executeCycle at h
  cases hf : fetch s with
  | none =>
    rw [hf] at h
    cases h
  | some w =>
    rw [hf] at h
    simp only [Option.map_eq_some'] at h
    obtain ⟨o1, ho1, rfl⟩ := h
    have hfr := execute_frame s draw w o1 ho1
    refine ⟨fun hs p => ?_, fun hn a ha => ?_⟩
    · show (tickTimers o1.state).screen p = 0 ∨ (tickTimers o1.state).screen p = 1
      rw [tickTimers_screen]
      exact hfr.1 hs p
    · show (tickTimers o1.state).memory a = s.memory a
      rw [tickTimers_memory]
      exact hfr.2 (fun hb => hn ⟨w, hf, hb.1, hb.2.1, hb.2.2⟩) a ha

/-! ## The font region -/

theorem init_memory_font (s : Chip8) (i : Nat) (hi : i < 80) :
    fontData[i]? = some ((init s).memory i) := by
  have hlen : i < fontData.length := hi
  have hin : 0 ≤ i ∧ i < 0 + 80 := by omega
  simp only [init, copyFont_apply, hin, and_self, if_true]
  simp [List.getD_eq_getElem?_getD, hlen]

theorem loadProgram_memory_below (s : Chip8) (file : Option (List Nat)) (a : Nat)
    (ha : a < 512) : (loadProgram s file).state.memory a = s.memory a := by
  unfold loadProgram
  cases file with
  | none => rfl
  | some bytes =>
    dsimp only
    split
    · rfl
    · have hc : ¬ (512 ≤ a ∧ a - 512 < bytes.length) := by omega
      show readInto s.memory bytes a = s.memory a
      simp only [readInto, hc, if_false]

theorem setKey_frame (s : Chip8) (index : Int) (pressed : Bool) :
    (setKey s index pressed).memory = s.memory ∧
    (setKey s index pressed).screen = s.screen := by
  unfold setKey
  split <;> exact ⟨rfl, rfl⟩

/-- C16 as stated fails: the font region is ordinary memory to the store
instructions.  On a machine just initialised and loaded with the two bytes
`0xF0 0x55` (respectively `0xF0 0x33`), one cycle stores `V0 = 0` (its digits
0, 0, 0) at `I = 0`; the resulting state is reachable and its `memory[0]` is 0,
not the font byte `0xF0`. -/
theorem font_overwritten_counterexample :
    (∃ o, executeCycle (boot [0xF0, 0x55]) 0 = some o ∧ Reachable o.state ∧
      o.state.memory 0 = 0) ∧
    (∃ o, executeCycle (boot [0xF0, 0x33]) 0 = some o ∧ Reachable o.state ∧
      o.state.memory 0 = 0) ∧
    fontData[0]? = some 0xF0 := by
  refine ⟨?_, ?_, rfl⟩
  · obtain ⟨o, ho⟩ : ∃ o, executeCycle (boot [0xF0, 0x55]) 0 = some o :=
      Option.isSome_iff_exists.mp (by decide)
    refine ⟨o, ho, Reachable.cycle _ 0 o
      (Reachable.load _ (some [0xF0, 0x55]) (Reachable.init zeroState)) ho, ?_⟩
    have hm : (executeCycle (boot [0xF0, 0x55]) 0).map (fun o => o.state.memory 0)
        = some 0 := by decide
    rw [ho] at hm
    exact Option.some.inj hm
  · obtain ⟨o, ho⟩ : ∃ o, executeCycle (boot [0xF0, 0x33]) 0 = some o :=
      Option.isSome_iff_exists.mp (by decide)
    refine ⟨o, ho, Reachable.cycle _ 0 o
      (Reachable.load _ (some [0xF0, 0x33]) (Reachable.init zeroState)) ho, ?_⟩
    have hm : (executeCycle (boot [0xF0, 0x33]) 0).map (fun o => o.state.memory 0)
        = some 0 := by decide
    rw [ho] at hm
    exact Option.some.inj hm

/-- C16, amended: in every state reachable from `initialize` by `loadProgram`,
`setKey` and `executeCycle` calls among which no `0xFx33` or `0xFx55` is executed
while the index register is below `0x50`, memory addresses `0x000..0x04F` hold
the 80 font bytes. -/
theorem font_preserved (s : Chip8) (h : ReachableSparingFont s) (i : Nat) (hi : i < 80) :
    fontData[i]? = some (s.memory i) := by
  induction h with
  | init s0 => exact init_memory_font s0 i hi
  | load s file _ ih =>
    rw [loadProgram_memory_below s file i (by omega)]
    exact ih
  | key s index pressed _ ih =>
    rw [(setKey_frame s index pressed).1]
    exact ih
  | cycle s draw o _ hn ho ih =>
    rw [(executeCycle_frame s draw o ho).2 hn i hi]
    exact ih

/-- Witness for C16 (amended): after initialising, loading `0x00E0 0xF055`,
pressing a key and clearing the display, the first font byte is still `0xF0`. -/
theorem font_preserved_witness :
    ∃ o, executeCycle (setKey (boot [0x00, 0xE0, 0xF0, 0x55]) 3 true) 0 = some o ∧
      fontData[0]? = some (o.state.memory 0) ∧ o.state.memory 0 = 0xF0 := by
  obtain ⟨o, ho⟩ :
      ∃ o, executeCycle (setKey (boot [0x00, 0xE0, 0xF0, 0x55]) 3 true) 0 = some o :=
    Option.isSome_iff_exists.mp (by decide)
  have hn : ¬ StoresIntoFont (setKey (boot [0x00, 0xE0, 0xF0, 0x55]) 3 true) := by
    rintro ⟨w, hw, hfam, _⟩
    have hw2 : fetch (setKey (boot [0x00, 0xE0, 0xF0, 0x55]) 3 true) = some 0x00E0 := by
      decide
    rw [hw2] at hw
    cases hw
    revert hfam
    decide
  have hr : ReachableSparingFont o.state :=
    ReachableSparingFont.cycle _ 0 o
      (ReachableSparingFont.key _ 3 true
        (ReachableSparingFont.load _ (some [0x00, 0xE0, 0xF0, 0x55])
          (ReachableSparingFont.init zeroState))) hn ho
  have hfont := font_preserved o.state hr 0 (by decide)
  refine ⟨o, ho, hfont, ?_⟩
  have h0 : fontData[0]? = some 0xF0 := rfl
  rw [h0] at hfont
  exact (Option.some.inj hfont).symm

/-! ## Display cells -/

/-- C19: in every state reachable from `initialize` by `loadProgram`, `setKey`
and completed `executeCycle` calls, every display cell holds 0 or 1; hence a cell
equals 1 exactly when it is not 0, which is what the collision test of the draw
instruction relies on. -/
theorem screen_cells_binary (s : Chip8) (h : Reachable s) :
    (∀ p, s.screen p = 0 ∨ s.screen p = 1) ∧
    (∀ p, s.screen p = 1 ↔ s.screen p ≠ 0) := by
  have hb : BinaryScreen s := by
    induction h with
    | init s0 => exact fun _ => Or.inl rfl
    | load s file _ ih =>
      intro p
      have hscr : (loadProgram s file).state.screen = s.screen := by
        unfold loadProgram
        cases file with
        | none => rfl
        | some bytes =>
          dsimp only
          split <;> rfl
      rw [hscr]
      exact ih p
    | key s index pressed _ ih =>
      intro p
      rw [(setKey_frame s index pressed).2]
      exact ih p
    | cycle s draw o _ ho ih => exact (executeCycle_frame s draw o ho).1 ih
  refine ⟨hb, fun p => ?_⟩
  rcases hb p with h0 | h1
  · rw [h0]
    decide
  · rw [h1]
    decide

/-- Witness for C19: the state after initialising, loading `0xD001` and executing
it, at the cells 0 (lit by the draw) and 4 (dark). -/
theorem screen_cells_binary_witness :
    ∃ o, executeCycle (boot [0xD0, 0x01]) 0 = some o ∧
      (o.state.screen 0 = 0 ∨ o.state.screen 0 = 1) ∧
      (o.state.screen 4 = 1 ↔ o.state.screen 4 ≠ 0) := by
  obtain ⟨o, ho⟩ : ∃ o, executeCycle (boot [0xD0, 0x01]) 0 = some o :=
    Option.isSome_iff_exists.mp (by decide)
  have hr : Reachable o.state :=
    Reachable.cycle _ 0 o (Reachable.load _ (some [0xD0, 0x01]) (Reachable.init zeroState)) ho
  exact ⟨o, ho, (screen_cells_binary o.state hr).1 0, (screen_cells_binary o.state hr).2 4⟩

end Chip8Emu
